import Mathlib

/-
Verification development for the codex-viz session indexer
(src/lib/indexer.ts and src/lib/paths.ts of the repository).

The TypeScript core is shallowly embedded: every JSONL line is a `String`,
parsed by an executable JSON parser modelling `JSON.parse` (restricted to
integer numerals; fractional/exponent numerals and a few exotic string
escapes are outside the modelled fragment, which no property here depends
on).  JavaScript `Date` parsing inside `toIso` is modelled on the ISO-8601
UTC profile (`YYYY-MM-DD`, optionally `THH:mm[:ss[.sss]]Z`); date strings
outside that profile are treated as unparseable.  File-system reads are
modelled by passing each file's stat fingerprint and list of lines
explicitly; a thrown exception is an `Except.error`.
-/

/-- JSON values as produced by `JSON.parse`, numbers restricted to
integers (the only numerals the indexer's data ever carries). -/
inductive J where
  | null : J
  | bool : Bool → J
  | num : Int → J
  | str : String → J
  | arr : List J → J
  | obj : List (String × J) → J
deriving Repr

/-- The `[`, `]` bracket characters and brace / quote / backslash
characters used by the JSON grammar. -/
def lbraceC : Char := Char.ofNat 123

def rbraceC : Char := Char.ofNat 125

def quoteC : Char := Char.ofNat 34

def backslashC : Char := Char.ofNat 92

def digitVal (c : Char) : Option Nat :=
  if '0' ≤ c ∧ c ≤ '9' then some (c.toNat - 48) else none

def hexVal (c : Char) : Option Nat :=
  if '0' ≤ c ∧ c ≤ '9' then some (c.toNat - 48)
  else if 'a' ≤ c ∧ c ≤ 'f' then some (c.toNat - 87)
  else if 'A' ≤ c ∧ c ≤ 'F' then some (c.toNat - 55)
  else none

/-- JSON insignificant whitespace. -/
def skipWs : List Char → List Char
  | [] => []
  | c :: cs =>
    if c = ' ' ∨ c = '\t' ∨ c = '\n' ∨ c = '\r' then skipWs cs else c :: cs

/-- Body of a JSON string, after the opening quote; handles the JSON
escapes.  Fuel-driven; callers pass enough fuel for the input. -/
def parseJString : Nat → List Char → List Char → Option (String × List Char)
  | 0, _, _ => none
  | fuel + 1, acc, cs =>
    match cs with
    | [] => none
    | c :: rest =>
      if c = quoteC then some (String.mk acc.reverse, rest)
      else if c = backslashC then
        match rest with
        | [] => none
        | e :: rest2 =>
          if e = quoteC then parseJString fuel (quoteC :: acc) rest2
          else if e = backslashC then parseJString fuel (backslashC :: acc) rest2
          else if e = '/' then parseJString fuel ('/' :: acc) rest2
          else if e = 'n' then parseJString fuel ('\n' :: acc) rest2
          else if e = 't' then parseJString fuel ('\t' :: acc) rest2
          else if e = 'r' then parseJString fuel ('\r' :: acc) rest2
          else if e = 'b' then parseJString fuel (Char.ofNat 8 :: acc) rest2
          else if e = 'f' then parseJString fuel (Char.ofNat 12 :: acc) rest2
          else if e = 'u' then
            match rest2 with
            | h1 :: h2 :: h3 :: h4 :: rest3 =>
              match hexVal h1, hexVal h2, hexVal h3, hexVal h4 with
              | some a, some b, some c3, some d =>
                parseJString fuel (Char.ofNat (((a * 16 + b) * 16 + c3) * 16 + d) :: acc) rest3
              | _, _, _, _ => none
            | _ => none
          else none
      else parseJString fuel (c :: acc) rest

/-- Reads a run of decimal digits, returning value, digit count and rest. -/
def parseDigits : Nat → List Char → Nat → Nat → Nat × Nat × List Char
  | 0, cs, acc, count => (acc, count, cs)
  | fuel + 1, cs, acc, count =>
    match cs with
    | c :: rest =>
      match digitVal c with
      | some d => parseDigits fuel rest (acc * 10 + d) (count + 1)
      | none => (acc, count, cs)
    | [] => (acc, count, cs)

mutual

/-- One JSON value (integer-numeral fragment); returns the remainder. -/
def parseVal : Nat → List Char → Option (J × List Char)
  | 0, _ => none
  | fuel + 1, cs0 =>
    match skipWs cs0 with
    | [] => none
    | c :: rest =>
      if c = quoteC then
        match parseJString (rest.length + 1) [] rest with
        | some (s, r) => some (J.str s, r)
        | none => none
      else if c = lbraceC then
        match skipWs rest with
        | d :: r2 => if d = rbraceC then some (J.obj [], r2) else parseObjItems fuel rest []
        | [] => none
      else if c = '[' then
        match skipWs rest with
        | d :: r2 => if d = ']' then some (J.arr [], r2) else parseArrItems fuel rest []
        | [] => none
      else if c = 'n' then
        match rest with
        | 'u' :: 'l' :: 'l' :: r => some (J.null, r)
        | _ => none
      else if c = 't' then
        match rest with
        | 'r' :: 'u' :: 'e' :: r => some (J.bool true, r)
        | _ => none
      else if c = 'f' then
        match rest with
        | 'a' :: 'l' :: 's' :: 'e' :: r => some (J.bool false, r)
        | _ => none
      else if c = '-' then
        match parseDigits (rest.length + 1) rest 0 0 with
        | (v, count, r) => if count = 0 then none else some (J.num (-(v : Int)), r)
      else
        match digitVal c with
        | some d =>
          match parseDigits (rest.length + 1) rest d 0 with
          | (v, _, r) => some (J.num (v : Int), r)
        | none => none

/-- Comma-separated array items up to the closing bracket. -/
def parseArrItems : Nat → List Char → List J → Option (J × List Char)
  | 0, _, _ => none
  | fuel + 1, cs, acc =>
    match parseVal fuel cs with
    | none => none
    | some (v, r) =>
      match skipWs r with
      | c :: r2 =>
        if c = ',' then parseArrItems fuel r2 (v :: acc)
        else if c = ']' then some (J.arr (v :: acc).reverse, r2)
        else none
      | [] => none

/-- Comma-separated object members up to the closing brace. -/
def parseObjItems : Nat → List Char → List (String × J) → Option (J × List Char)
  | 0, _, _ => none
  | fuel + 1, cs, acc =>
    match skipWs cs with
    | c :: rest =>
      if c = quoteC then
        match parseJString (rest.length + 1) [] rest with
        | some (k, r) =>
          (match skipWs r with
           | c2 :: r2 =>
             if c2 = ':' then
               (match parseVal fuel r2 with
                | some (v, r3) =>
                  (match skipWs r3 with
                   | c3 :: r4 =>
                     if c3 = ',' then parseObjItems fuel r4 ((k, v) :: acc)
                     else if c3 = rbraceC then some (J.obj ((k, v) :: acc).reverse, r4)
                     else none
                   | [] => none)
                | none => none)
             else none
           | [] => none)
        | none => none
      else none
    | [] => none

end

/-- Models `JSON.parse` on one line: a single value with only trailing
whitespace allowed. -/
def parseJson (s : String) : Option J :=
  match parseVal (s.length + 2) s.data with
  | some (v, rest) => if skipWs rest = [] then some v else none
  | none => none

/-- Source `safeJsonParse`: `JSON.parse` that returns null on failure. -/
def safeJsonParse (line : String) : Option J :=
  parseJson line

/-- JavaScript falsiness of a JSON value (`if (!obj) continue`). -/
def jFalsy : J → Bool
  | J.null => true
  | J.bool b => !b
  | J.num n => n == 0
  | J.str s => s == ""
  | _ => false

/-- JavaScript property access `x.k`: `none` models `undefined` (also for
non-objects).  Duplicate keys resolve to the last one, as in `JSON.parse`. -/
def jField : J → String → Option J
  | J.obj fs, k => fs.foldl (fun acc kv => if kv.1 = k then some kv.2 else acc) none
  | _, _ => none

/-- Implements `x ?? \x7b\x7d`: nullish payloads are replaced by an empty object. -/
def coalesceToObj : Option J → J
  | some J.null => J.obj []
  | none => J.obj []
  | some v => v

/-- Implements `typeof x === "string" ? x : null`. -/
def asString : Option J → Option String
  | some (J.str s) => some s
  | _ => none

/-- Implements `x === "lit"` for a possibly-undefined value against a string literal. -/
def jIsStr (x : Option J) (s : String) : Bool :=
  match x with
  | some (J.str t) => t == s
  | _ => false

/-- Calendar/clock components of a parsed timestamp. -/
structure DateComps where
  year : Nat
  month : Nat
  day : Nat
  hour : Nat
  minute : Nat
  second : Nat
  ms : Nat
deriving Repr, DecidableEq

def isLeap (y : Nat) : Bool :=
  (y % 4 = 0 ∧ y % 100 ≠ 0) ∨ y % 400 = 0

def daysInMonth (y m : Nat) : Nat :=
  if m = 1 ∨ m = 3 ∨ m = 5 ∨ m = 7 ∨ m = 8 ∨ m = 10 ∨ m = 12 then 31
  else if m = 4 ∨ m = 6 ∨ m = 9 ∨ m = 11 then 30
  else if isLeap y then 29 else 28

/-- Range validity, mirroring the checks JavaScript `Date` applies to an
ISO date-time string. -/
def validComps (c : DateComps) : Prop :=
  1 ≤ c.month ∧ c.month ≤ 12 ∧ 1 ≤ c.day ∧ c.day ≤ daysInMonth c.year c.month ∧
    c.hour ≤ 23 ∧ c.minute ≤ 59 ∧ c.second ≤ 59 ∧ c.ms ≤ 999 ∧ c.year ≤ 9999

instance (c : DateComps) : Decidable (validComps c) := by
  unfold validComps; infer_instance

/-- Exactly `n` decimal digits. -/
def parseNDigits : Nat → List Char → Option (Nat × List Char)
  | 0, cs => some (0, cs)
  | _ + 1, [] => none
  | n + 1, c :: cs =>
    match digitVal c with
    | some d =>
      match parseNDigits n cs with
      | some (v, r) => some (d * 10 ^ n + v, r)
      | none => none
    | none => none

/-- Reads the modelled ISO-8601 UTC profile into raw components:
`YYYY-MM-DD`, optionally followed by `THH:mm`, `:ss`, `.sss`, with a
mandatory trailing `Z` whenever a time is present. -/
def parseIsoRaw (s : String) : Option DateComps :=
  match parseNDigits 4 s.data with
  | none => none
  | some (y, cs1) =>
    match cs1 with
    | '-' :: cs2 =>
      match parseNDigits 2 cs2 with
      | none => none
      | some (mo, cs3) =>
        match cs3 with
        | '-' :: cs4 =>
          match parseNDigits 2 cs4 with
          | none => none
          | some (d, cs5) =>
            match cs5 with
            | [] => some (DateComps.mk y mo d 0 0 0 0)
            | 'T' :: cs6 =>
              match parseNDigits 2 cs6 with
              | none => none
              | some (h, cs7) =>
                match cs7 with
                | ':' :: cs8 =>
                  match parseNDigits 2 cs8 with
                  | none => none
                  | some (mi, cs9) =>
                    match cs9 with
                    | ['Z'] => some (DateComps.mk y mo d h mi 0 0)
                    | ':' :: cs10 =>
                      match parseNDigits 2 cs10 with
                      | none => none
                      | some (sec, cs11) =>
                        match cs11 with
                        | ['Z'] => some (DateComps.mk y mo d h mi sec 0)
                        | '.' :: cs12 =>
                          match parseNDigits 3 cs12 with
                          | none => none
                          | some (msv, cs13) =>
                            match cs13 with
                            | ['Z'] => some (DateComps.mk y mo d h mi sec msv)
                            | _ => none
                        | _ => none
                    | _ => none
                | _ => none
            | _ => none
        | _ => none
    | _ => none

/-- Parse plus the range validity check `Date` applies. -/
def parseIsoComps (s : String) : Option DateComps :=
  match parseIsoRaw s with
  | some c => if validComps c then some c else none
  | none => none

def padNum (width n : Nat) : String :=
  let s := toString n
  String.mk (List.replicate (width - s.length) '0') ++ s

/-- Models the `Date.prototype.toISOString` rendering of validated components. -/
def renderIso (c : DateComps) : String :=
  padNum 4 c.year ++ "-" ++ padNum 2 c.month ++ "-" ++ padNum 2 c.day ++ "T" ++
    padNum 2 c.hour ++ ":" ++ padNum 2 c.minute ++ ":" ++ padNum 2 c.second ++ "." ++
    padNum 3 c.ms ++ "Z"

/-- Models `new Date(s).toISOString()` for a string in the modelled profile. -/
def isoNorm (s : String) : Option String :=
  match parseIsoComps s with
  | some c => some (renderIso c)
  | none => none

/-- Source `toIso`: non-strings and unparseable strings give null. -/
def toIso (x : Option J) : Option String :=
  match x with
  | some (J.str s) => isoNorm s
  | _ => none

/-- Day count since the Unix epoch for a civil date (standard
era/year-of-era computation). -/
def daysFromCivil (y m d : Int) : Int :=
  let y2 := if m ≤ 2 then y - 1 else y
  let era := (if 0 ≤ y2 then y2 else y2 - 399) / 400
  let yoe := y2 - era * 400
  let mp := (m + 9) % 12
  let doy := (153 * mp + 2) / 5 + d - 1
  let doe := yoe * 365 + yoe / 4 - yoe / 100 + doy
  era * 146097 + doe - 719468

def compsToMillis (c : DateComps) : Int :=
  daysFromCivil (c.year : Int) (c.month : Int) (c.day : Int) * 86400000 +
    (c.hour : Int) * 3600000 + (c.minute : Int) * 60000 + (c.second : Int) * 1000 + (c.ms : Int)

/-- Models `new Date(s).getTime()`; `none` models NaN. -/
def getTime (s : String) : Option Int :=
  match parseIsoComps s with
  | some c => some (compsToMillis c)
  | none => none

/-- Source `dayKeyFromIso`: falsy (null or empty) gives "unknown",
otherwise the first 10 characters. -/
def dayKeyFromIso (iso : Option String) : String :=
  match iso with
  | none => "unknown"
  | some s => if s = "" then "unknown" else s.take 10

/-- Assoc-list read modelling JavaScript object/`Map` lookup (keys are
unique under `mset`, so first match is the binding). -/
def mget {α : Type} : List (String × α) → String → Option α
  | [], _ => none
  | (k2, v) :: rest, k => if k2 = k then some v else mget rest k

/-- Assoc-list write modelling `obj[k] = v` / `Map.set`: overwrite the
existing binding in place, else append, preserving insertion order. -/
def mset {α : Type} : List (String × α) → String → α → List (String × α)
  | [], k, v => [(k, v)]
  | (k2, v2) :: rest, k, v =>
    if k2 = k then (k2, v) :: rest else (k2, v2) :: mset rest k v

/-- Per-session summary (`SessionSummary` in src/lib/types).  `id` is kept
as a JSON value because `summarizeFromMeta` copies `payload.id` verbatim. -/
structure SessionSummary where
  id : J
  file : String
  startedAt : Option String
  endedAt : Option String
  durationSec : Option Int
  cwd : Option String
  originator : Option String
  cliVersion : Option String
  messages : Nat
  toolCalls : Nat
  errors : Nat

/-- Models `path.basename(file, ".jsonl")`: the last slash-separated
component, with the extension stripped unless it is the whole name
(paths with trailing slashes are outside the modelled fragment). -/
def basenameNoJsonl (p : String) : String :=
  let base := p.data.foldl (fun acc c => if c = '/' then [] else acc ++ [c]) []
  if String.mk base ≠ ".jsonl" ∧ base.reverse.take 6 = ".jsonl".data.reverse then
    String.mk (base.take (base.length - 6))
  else String.mk base

/-- Source `summarizeFromMeta`: a fresh summary assembled from a
session-metadata record, counters zero. -/
def summarizeFromMeta (sessionId file : String) (meta : J) : SessionSummary :=
  let payload := coalesceToObj (jField meta "payload")
  { id :=
      (match jField payload "id" with
       | some J.null => J.str sessionId
       | none => J.str sessionId
       | some v => v),
    file := file,
    startedAt :=
      (match toIso (jField meta "timestamp") with
       | some t => some t
       | none => toIso (jField payload "timestamp")),
    endedAt := none, durationSec := none,
    cwd := asString (jField payload "cwd"),
    originator := asString (jField payload "originator"),
    cliVersion := asString (jField payload "cli_version"),
    messages := 0, toolCalls := 0, errors := 0 }

/-- Prefix test used by the substring search. -/
def isPreOf : List Char → List Char → Bool
  | [], _ => true
  | _ :: _, [] => false
  | a :: as, b :: bs => a == b && isPreOf as bs

/-- Substring occurrence of `needle` in `hay`. -/
def containsSub : List Char → List Char → Bool
  | [], needle => needle.isEmpty
  | c :: rest, needle => isPreOf needle (c :: rest) || containsSub rest needle

/-- The `/error|exception|traceback/i` test of the summarizer, modelled by
lower-casing and substring search (ASCII case folding). -/
def matchesErrPattern (s : String) : Bool :=
  let h := s.data.map Char.toLower
  containsSub h "error".data || containsSub h "exception".data ||
    containsSub h "traceback".data

/-- Implements `out.startsWith("\x7b")`. -/
def headIsBrace (s : String) : Bool :=
  match s.data with
  | c :: _ => c == lbraceC
  | [] => false

/-- Mutable state of one `buildFileIndex` scan. -/
structure FileScanState where
  summary : SessionSummary
  tools : List (String × Nat)
  callMap : List (String × String)
  firstTs : Option String
  lastTs : Option String

def initialSummary (sessionId file : String) : SessionSummary :=
  { id := J.str sessionId, file := file, startedAt := none, endedAt := none,
    durationSec := none, cwd := none, originator := none, cliVersion := none,
    messages := 0, toolCalls := 0, errors := 0 }

def initScanState (sessionId file : String) : FileScanState :=
  ⟨initialSummary sessionId file, [], [], none, none⟩

/-- Lines 148-152 of the scan loop: track first/last parseable timestamp. -/
def tsUpdate (st : FileScanState) (obj : J) : FileScanState :=
  match toIso (jField obj "timestamp") with
  | some t =>
    { st with firstTs := if st.firstTs.isNone then some t else st.firstTs,
              lastTs := some t }
  | none => st

/-- Lines 154-157: a session_meta record replaces the summary wholesale. -/
def metaUpdate (sessionId file : String) (st : FileScanState) (obj : J) : FileScanState :=
  if jIsStr (jField obj "type") "session_meta" then
    let s := summarizeFromMeta sessionId file obj
    { st with summary := s,
              firstTs := if st.firstTs.isNone && s.startedAt.isSome then s.startedAt
                         else st.firstTs }
  else st

/-- Lines 159-162: an aborted turn increments the error counter. -/
def abortUpdate (st : FileScanState) (obj : J) : FileScanState :=
  if jIsStr (jField obj "type") "event_msg" &&
      jIsStr ((jField obj "payload").bind (fun p => jField p "type")) "turn_aborted" then
    { st with summary := { st.summary with errors := st.summary.errors + 1 } }
  else st

/-- Implements `parsed?.metadata?.exit_code`. -/
def exitCodeOf (parsed : J) : Option J :=
  (jField parsed "metadata").bind (fun m => jField m "exit_code")

/-- Implements `typeof exitCode === "number" && exitCode !== 0`. -/
def isNonzeroNum : Option J → Bool
  | some (J.num n) => !(n == 0)
  | _ => false

/-- Lines 180-193: the two sequential conditional error increments applied
to a truthy tool-call output string. -/
def outputErrors (errors : Nat) (out : String) : Nat :=
  let e1 := if matchesErrPattern out then errors + 1 else errors
  if headIsBrace out then
    match safeJsonParse out with
    | some parsed => if isNonzeroNum (exitCodeOf parsed) then e1 + 1 else e1
    | none => e1
  else e1

/-- Lines 164-197: the response_item branch of the scan loop. -/
def respUpdate (st : FileScanState) (obj : J) : FileScanState :=
  if jIsStr (jField obj "type") "response_item" then
    let payload := coalesceToObj (jField obj "payload")
    let pt := jField payload "type"
    if jIsStr pt "message" then
      let role := jField payload "role"
      if jIsStr role "user" || jIsStr role "assistant" then
        { st with summary := { st.summary with messages := st.summary.messages + 1 } }
      else st
    else if jIsStr pt "function_call" || jIsStr pt "custom_tool_call" then
      let name := (asString (jField payload "name")).getD "unknown"
      let callId := asString (jField payload "call_id")
      { st with
        summary := { st.summary with toolCalls := st.summary.toolCalls + 1 },
        tools := mset st.tools name ((mget st.tools name).getD 0 + 1),
        callMap :=
          (match callId with
           | some c => mset st.callMap c name
           | none => st.callMap) }
    else if jIsStr pt "function_call_output" || jIsStr pt "custom_tool_call_output" then
      match asString (jField payload "output") with
      | some out =>
        if out = "" then st
        else { st with summary := { st.summary with errors := outputErrors st.summary.errors out } }
      | none => st
    else st
  else st

/-- One decoded record through the four sequential blocks of the loop. -/
def processRec (sessionId file : String) (st : FileScanState) (obj : J) : FileScanState :=
  respUpdate (abortUpdate (metaUpdate sessionId file (tsUpdate st obj) obj) obj) obj

/-- One raw line: malformed or falsy parses are discarded. -/
def scanStep (sessionId file : String) (st : FileScanState) (line : String) : FileScanState :=
  match safeJsonParse line with
  | none => st
  | some obj => if jFalsy obj then st else processRec sessionId file st obj

structure FileIndexResult where
  sessionId : String
  summary : SessionSummary
  tools : List (String × Nat)
  dailyKey : String

/-- Source `buildFileIndex` over the file's lines, including the
post-stream fixups of startedAt / endedAt / durationSec / dailyKey. -/
def buildFileIndex (file : String) (lines : List String) : FileIndexResult :=
  let sessionId := basenameNoJsonl file
  let st := lines.foldl (scanStep sessionId file) (initScanState sessionId file)
  let startedAt :=
    match st.summary.startedAt with
    | some x => some x
    | none => st.firstTs
  let endedAt := st.lastTs
  let durationSec :=
    match startedAt, endedAt with
    | some sa, some ea =>
      (match getTime sa, getTime ea with
       | some a, some b => if a ≤ b then some ((b - a) / 1000) else none
       | _, _ => none)
    | _, _ => none
  let summary := { st.summary with startedAt := startedAt, endedAt := endedAt,
                                   durationSec := durationSec }
  let dailyKey :=
    dayKeyFromIso
      (match summary.startedAt with
       | some x => some x
       | none => st.firstTs)
  ⟨sessionId, summary, st.tools, dailyKey⟩

/-- Per calendar-day aggregate bucket. -/
structure DailyAgg where
  sessions : Nat
  messages : Nat
  toolCalls : Nat
  errors : Nat
deriving Repr, DecidableEq

/-- Source `mergeDaily` (call sites always pass all four deltas). -/
def mergeDaily (target : List (String × DailyAgg)) (key : String) (delta : DailyAgg) :
    List (String × DailyAgg) :=
  let cur := (mget target key).getD ⟨0, 0, 0, 0⟩
  mset target key
    ⟨cur.sessions + delta.sessions, cur.messages + delta.messages,
     cur.toolCalls + delta.toolCalls, cur.errors + delta.errors⟩

/-- Source `mergeTools`. -/
def mergeTools (target add : List (String × Nat)) : List (String × Nat) :=
  add.foldl (fun t kv => mset t kv.1 ((mget t kv.1).getD 0 + kv.2)) target

/-- Stat fingerprint of a live file. -/
structure FileStat where
  mtimeMs : Int
  size : Nat
deriving Repr, DecidableEq

/-- One discovered log file: its absolute path, its stat result (`none`
models `fsp.stat` throwing because the file vanished), and its lines. -/
structure FileEntry where
  path : String
  stat : Option FileStat
  lines : List String

/-- Persisted manifest entry for one file. -/
structure ManifestEntry where
  mtimeMs : Int
  size : Nat
  sessionId : String
  summary : SessionSummary
  tools : List (String × Nat)
  dailyKey : String

structure Manifest where
  version : Nat
  sessionsDir : String
  files : List (String × ManifestEntry)

def INDEX_VERSION : Nat := 1

structure Totals where
  files : Nat
  sessions : Nat
  messages : Nat
  toolCalls : Nat
  errors : Nat

structure IndexSnapshot where
  version : Nat
  generatedAt : String
  sessionsDir : String
  cacheDir : String
  totals : Totals
  tools : List (String × Nat)
  daily : List (String × DailyAgg)
  sessions : List SessionSummary

/-- What one file contributes to the aggregates of a build pass. -/
structure Contribution where
  summary : SessionSummary
  tools : List (String × Nat)
  dailyKey : String

/-- Accumulated state of the per-file loop of `buildOrUpdateIndex`. -/
structure BState where
  mfiles : List (String × ManifestEntry)
  daily : List (String × DailyAgg)
  tools : List (String × Nat)
  sessions : List SessionSummary
  reread : List String

/-- Push one file's summary/histogram/daily bucket into the aggregates
(lines 257-264 and 269-276 of the source). -/
def pushContrib (st : BState) (c : Contribution) : BState :=
  { st with
    sessions := st.sessions ++ [c.summary],
    tools := mergeTools st.tools c.tools,
    daily := mergeDaily st.daily c.dailyKey
      ⟨1, c.summary.messages, c.summary.toolCalls, c.summary.errors⟩ }

/-- Re-summarize a file and overwrite its manifest entry; the path is
recorded in `reread`, instrumenting the file's contents being read. -/
def buildAndRecord (st : BState) (fe : FileEntry) (s : FileStat) : BState :=
  let built := buildFileIndex fe.path fe.lines
  let st2 := pushContrib st ⟨built.summary, built.tools, built.dailyKey⟩
  { st2 with
    mfiles := mset st2.mfiles fe.path
      ⟨s.mtimeMs, s.size, built.sessionId, built.summary, built.tools, built.dailyKey⟩,
    reread := st2.reread ++ [fe.path] }

/-- Lines 247-286: stat the file (skip on failure), reuse the manifest
entry when the fingerprint matches, else re-summarize. -/
def stepFile (st : BState) (fe : FileEntry) : BState :=
  match fe.stat with
  | none => st
  | some s =>
    match mget st.mfiles fe.path with
    | some prev =>
      if prev.mtimeMs = s.mtimeMs ∧ prev.size = s.size then
        pushContrib st ⟨prev.summary, prev.tools, prev.dailyKey⟩
      else buildAndRecord st fe s
    | none => buildAndRecord st fe s

/-- Lines 236-240: a manifest with a different schema version or sessions
directory is discarded. -/
def initMfiles (prev : Option Manifest) (sessionsDir : String) :
    List (String × ManifestEntry) :=
  match prev with
  | some p =>
    if p.version = INDEX_VERSION ∧ p.sessionsDir = sessionsDir then p.files else []
  | none => []

structure BuildResult where
  snapshot : IndexSnapshot
  manifest : Manifest
  reread : List String

/-- Source `buildOrUpdateIndex` over a corpus given as the discovery-order
list of files (each with its stat fingerprint and lines). -/
def buildOrUpdateIndex (sessionsDir cacheDir : String) (prev : Option Manifest)
    (files : List FileEntry) (now : String) : BuildResult :=
  let st := files.foldl stepFile ⟨initMfiles prev sessionsDir, [], [], [], []⟩
  let paths := files.map FileEntry.path
  let mfiles := st.mfiles.filter (fun kv => paths.contains kv.1)
  let totals : Totals :=
    ⟨files.length, st.sessions.length,
     st.sessions.foldl (fun a s => a + s.messages) 0,
     st.sessions.foldl (fun a s => a + s.toolCalls) 0,
     st.sessions.foldl (fun a s => a + s.errors) 0⟩
  { snapshot := ⟨INDEX_VERSION, now, sessionsDir, cacheDir, totals, st.tools,
                 st.daily, st.sessions⟩,
    manifest := ⟨INDEX_VERSION, sessionsDir, mfiles⟩,
    reread := st.reread }

/-- Implements `parts.join("\n")`. -/
def joinNl : List String → String
  | [] => ""
  | [s] => s
  | s :: rest => s ++ "\n" ++ joinNl rest

/-- JavaScript string whitespace (ASCII fragment of the `trim` class). -/
def isJsWs (c : Char) : Bool :=
  c = ' ' ∨ c = '\t' ∨ c = '\n' ∨ c = '\r' ∨ c = Char.ofNat 11 ∨ c = Char.ofNat 12

/-- Models `String.prototype.trim`. -/
def jsTrim (s : String) : String :=
  String.mk (((s.data.dropWhile isJsWs).reverse.dropWhile isJsWs).reverse)

/-- Source `extractMessageText`. -/
def extractMessageText (payload : J) : Option String :=
  match jField payload "content" with
  | some (J.arr content) =>
    let parts := content.filterMap (fun c =>
      if jIsStr (jField c "type") "input_text" && (asString (jField c "text")).isSome then
        asString (jField c "text")
      else if jIsStr (jField c "type") "output_text" && (asString (jField c "text")).isSome then
        asString (jField c "text")
      else if (asString (jField c "text")).isSome then
        asString (jField c "text")
      else none)
    let txt := jsTrim (joinNl parts)
    if txt = "" then none else some txt
  | _ => none

/-- One displayed timeline entry.  `ts` is always present (the source
always supplies it); `name` and `text` are optional fields. -/
structure TimelineEvent where
  ts : String
  kind : String
  name : Option String
  text : Option String
deriving Repr, DecidableEq

structure SessionTimelineResponse where
  summary : SessionSummary
  truncated : Bool
  events : List TimelineEvent

/-- Event list and call-id correlation map of one extraction pass. -/
structure TlState where
  events : List TimelineEvent
  callMap : List (String × String)

def maxEvents : Nat := 5000

/-- Lines 375-411: one decoded record of the timeline extraction. -/
def tlProcess (st : TlState) (obj : J) : TlState :=
  let ts := (toIso (jField obj "timestamp")).getD ""
  let st1 :=
    if jIsStr (jField obj "type") "event_msg" &&
        jIsStr ((jField obj "payload").bind (fun p => jField p "type")) "turn_aborted" then
      { st with events := st.events ++ [⟨ts, "error", none, some "turn_aborted"⟩] }
    else st
  if jIsStr (jField obj "type") "response_item" then
    let payload := coalesceToObj (jField obj "payload")
    let pt := jField payload "type"
    if jIsStr pt "message" then
      let role := jField payload "role"
      let text := (extractMessageText payload).getD ""
      if jIsStr role "user" then
        { st1 with events := st1.events ++ [⟨ts, "user", none, some text⟩] }
      else if jIsStr role "assistant" then
        { st1 with events := st1.events ++ [⟨ts, "assistant", none, some text⟩] }
      else
        { st1 with events := st1.events ++ [⟨ts, "other", none, some text⟩] }
    else if jIsStr pt "function_call" || jIsStr pt "custom_tool_call" then
      let name := (asString (jField payload "name")).getD "unknown"
      let callId := asString (jField payload "call_id")
      let cmap :=
        match callId with
        | some c => mset st1.callMap c name
        | none => st1.callMap
      let args := asString (jField payload "arguments")
      let input := asString (jField payload "input")
      let ev1 := st1.events ++ [⟨ts, "tool_call", some name, some (args.getD "")⟩]
      let argsFalsy :=
        match args with
        | none => true
        | some a => a == ""
      let inputTruthy :=
        match input with
        | some i => !(i == "")
        | none => false
      let ev2 :=
        if argsFalsy && inputTruthy then
          ev1.set (ev1.length - 1) ⟨ts, "tool_call", some name, some (input.getD "")⟩
        else ev1
      { events := ev2, callMap := cmap }
    else if jIsStr pt "function_call_output" || jIsStr pt "custom_tool_call_output" then
      let callId := asString (jField payload "call_id")
      let name :=
        match asString (jField payload "name") with
        | some n => some n
        | none =>
          (match callId with
           | some c => mget st1.callMap c
           | none => none)
      let out := (asString (jField payload "output")).getD ""
      { st1 with events := st1.events ++ [⟨ts, "tool_output", name, some out⟩] }
    else st1
  else st1

/-- One raw line of timeline extraction. -/
def tlStep (st : TlState) (line : String) : TlState :=
  match safeJsonParse line with
  | none => st
  | some obj => if jFalsy obj then st else tlProcess st obj

/-- The capped extraction loop: after each line, once `maxEvents` events
have accumulated the loop stops and the response is marked truncated. -/
def buildTimelineGo : List String → TlState → List TimelineEvent × Bool
  | [], st => (st.events, false)
  | l :: ls, st =>
    let st2 := tlStep st l
    if maxEvents ≤ st2.events.length then (st2.events, true)
    else buildTimelineGo ls st2

/-- Source `buildTimeline`. -/
def buildTimeline (lines : List String) (summary : SessionSummary) :
    SessionTimelineResponse :=
  let r := buildTimelineGo lines ⟨[], []⟩
  ⟨summary, r.2, r.1⟩

/-- The same extraction with no cap, used to speak about the events a file
"produces". -/
def tlFold (lines : List String) (st : TlState) : TlState :=
  lines.foldl tlStep st

def uncappedEvents (lines : List String) : List TimelineEvent :=
  (tlFold lines ⟨[], []⟩).events

/-- Predicate of `index.sessions.find((s) => s.id === sessionId)`. -/
def sessionMatches (sessionId : String) (s : SessionSummary) : Bool :=
  match s.id with
  | J.str t => t == sessionId
  | _ => false

/-- Source `findFileForSession`: exact filename-stem match first, else scan
only the first line of each file for a matching session_meta id. -/
def findFileForSession (fsFiles : List FileEntry) (sessionId : String) : Option String :=
  let files := fsFiles.map FileEntry.path
  match files.find? (fun f => basenameNoJsonl f == sessionId) with
  | some f => some f
  | none =>
    fsFiles.findSome? (fun fe =>
      match fe.lines.head? with
      | some line =>
        (match safeJsonParse line with
         | some obj =>
           if jIsStr (jField obj "type") "session_meta" &&
               jIsStr ((jField obj "payload").bind (fun p => jField p "id")) sessionId then
             some fe.path
           else none
         | none => none)
      | none => none)

/-- Persisted per-session timeline cache entry (`readJsonFile` result with
the recorded fingerprint fields, possibly absent). -/
structure TLCacheEntry where
  summary : SessionSummary
  truncated : Bool
  events : List TimelineEvent
  fileMtimeMs : Option Int
  fileSize : Option Nat

/-- Lines 428-446: the synthetic response for an unresolvable session id. -/
def syntheticMissingResponse (sessionId now : String) : SessionTimelineResponse :=
  { summary :=
      { id := J.str sessionId, file := "", startedAt := none, endedAt := none,
        durationSec := none, cwd := none, originator := none, cliVersion := none,
        messages := 0, toolCalls := 0, errors := 1 },
    truncated := false,
    events := [⟨now, "error", none, some "未找到对应 session 文件"⟩] }

/-- Lines 456-457: rebuild the timeline, reusing the snapshot's summary if
the session was listed, else re-summarizing the file. -/
def rebuildTimeline (session : Option SessionSummary) (fe : FileEntry) :
    SessionTimelineResponse :=
  let summary :=
    match session with
    | some s => s
    | none => (buildFileIndex fe.path fe.lines).summary
  buildTimeline fe.lines summary

/-- Source `getSessionTimeline`, with the snapshot, the live file system
and the per-session cache passed explicitly; `Except.error` models an
exception escaping to the caller (the un-guarded `fsp.stat`). -/
def getSessionTimeline (index : IndexSnapshot) (fsFiles : List FileEntry)
    (tlCache : String → Option TLCacheEntry) (now sessionId : String) :
    Except String SessionTimelineResponse :=
  let session := index.sessions.find? (sessionMatches sessionId)
  let fileOpt :=
    match session with
    | some s => some s.file
    | none => findFileForSession fsFiles sessionId
  match fileOpt with
  | none => Except.ok (syntheticMissingResponse sessionId now)
  | some file =>
    if file = "" then Except.ok (syntheticMissingResponse sessionId now)
    else
      match fsFiles.find? (fun fe => fe.path == file) with
      | none => Except.error ("ENOENT: " ++ file)
      | some fe =>
        match fe.stat with
        | none => Except.error ("ENOENT: " ++ file)
        | some st =>
          match tlCache sessionId with
          | some c =>
            if c.fileMtimeMs = some st.mtimeMs ∧ c.fileSize = some st.size then
              Except.ok ⟨c.summary, c.truncated, c.events⟩
            else Except.ok (rebuildTimeline session fe)
          | none => Except.ok (rebuildTimeline session fe)

/-
Specification-side definitions: quantities the claims speak about,
characterizations used to state and prove them, and the concrete inputs
of witnesses and counterexamples.
-/

/-- The (messages, toolCalls, errors) counters of a scan state. -/
def cOf (st : FileScanState) : Nat × Nat × Nat :=
  (st.summary.messages, st.summary.toolCalls, st.summary.errors)

/-- The (messages, toolCalls, errors) counters of a file summary. -/
def countersTriple (r : FileIndexResult) : Nat × Nat × Nat :=
  (r.summary.messages, r.summary.toolCalls, r.summary.errors)

/-- Counter effect of the session_meta block. -/
def metaC (obj : J) (c : Nat × Nat × Nat) : Nat × Nat × Nat :=
  if jIsStr (jField obj "type") "session_meta" then (0, 0, 0) else c

/-- Counter effect of the aborted-turn block. -/
def abortC (obj : J) (c : Nat × Nat × Nat) : Nat × Nat × Nat :=
  if jIsStr (jField obj "type") "event_msg" &&
      jIsStr ((jField obj "payload").bind (fun p => jField p "type")) "turn_aborted" then
    (c.1, c.2.1, c.2.2 + 1)
  else c

/-- Counter effect of the response_item block. -/
def respC (obj : J) (c : Nat × Nat × Nat) : Nat × Nat × Nat :=
  if jIsStr (jField obj "type") "response_item" then
    let payload := coalesceToObj (jField obj "payload")
    let pt := jField payload "type"
    if jIsStr pt "message" then
      if jIsStr (jField payload "role") "user" || jIsStr (jField payload "role") "assistant" then
        (c.1 + 1, c.2.1, c.2.2)
      else c
    else if jIsStr pt "function_call" || jIsStr pt "custom_tool_call" then
      (c.1, c.2.1 + 1, c.2.2)
    else if jIsStr pt "function_call_output" || jIsStr pt "custom_tool_call_output" then
      match asString (jField payload "output") with
      | some out => if out = "" then c else (c.1, c.2.1, outputErrors c.2.2 out)
      | none => c
    else c
  else c

/-- Counter effect of one raw line. -/
def lineC (line : String) (c : Nat × Nat × Nat) : Nat × Nat × Nat :=
  match safeJsonParse line with
  | none => c
  | some obj => if jFalsy obj then c else respC obj (abortC obj (metaC obj c))

/-- A line that decodes to a live session-metadata record. -/
def isSessionMetaLine (line : String) : Bool :=
  match safeJsonParse line with
  | some obj => !jFalsy obj && jIsStr (jField obj "type") "session_meta"
  | none => false

/-- A line that decodes to a live function/custom tool-call record. -/
def isToolCallLine (line : String) : Bool :=
  match safeJsonParse line with
  | some obj =>
    !jFalsy obj && jIsStr (jField obj "type") "response_item" &&
      (jIsStr (jField (coalesceToObj (jField obj "payload")) "type") "function_call" ||
       jIsStr (jField (coalesceToObj (jField obj "payload")) "type") "custom_tool_call")
  | none => false

/-- Sum of all values of a tool-name histogram. -/
def toolsSum (ts : List (String × Nat)) : Nat :=
  (ts.map (fun kv => kv.2)).sum

def countToolCallLines (lines : List String) : Nat :=
  lines.countP isToolCallLine

/-- Tool-call records contributed by a file that can be statted. -/
def liveCallCount (fe : FileEntry) : Nat :=
  match fe.stat with
  | some _ => countToolCallLines fe.lines
  | none => 0

def sumCalls (files : List FileEntry) : Nat :=
  (files.map liveCallCount).sum

def sumMessages (ss : List SessionSummary) : Nat :=
  (ss.map (fun s => s.messages)).sum

def sumToolCalls (ss : List SessionSummary) : Nat :=
  (ss.map (fun s => s.toolCalls)).sum

def sumErrors (ss : List SessionSummary) : Nat :=
  (ss.map (fun s => s.errors)).sum

/-- The output string parses as JSON exposing a numeric non-zero
`metadata.exit_code`. -/
def jsonNonzeroExit (out : String) : Bool :=
  match safeJsonParse out with
  | some parsed => isNonzeroNum (exitCodeOf parsed)
  | none => false

/-- A decoded tool-call output record carrying the given output string. -/
def outputRecord (out : String) : J :=
  J.obj [("type", J.str "response_item"),
         ("payload", J.obj [("type", J.str "function_call_output"),
                            ("output", J.str out)])]

/-- The aggregate (daily, tools, sessions) component of a build state. -/
def aggOf (st : BState) :
    List (String × DailyAgg) × List (String × Nat) × List SessionSummary :=
  (st.daily, st.tools, st.sessions)

/-- Aggregate effect of pushing one contribution. -/
def aggPush (a : List (String × DailyAgg) × List (String × Nat) × List SessionSummary)
    (c : Contribution) :
    List (String × DailyAgg) × List (String × Nat) × List SessionSummary :=
  (mergeDaily a.1 c.dailyKey ⟨1, c.summary.messages, c.summary.toolCalls, c.summary.errors⟩,
   mergeTools a.2.1 c.tools, a.2.2 ++ [c.summary])

def entryContribution (e : ManifestEntry) : Contribution :=
  ⟨e.summary, e.tools, e.dailyKey⟩

/-- Contributions a pass pushes when every file is served from manifest
state `m`. -/
def tripleList (m : List (String × ManifestEntry)) (ls : List FileEntry) :
    List Contribution :=
  ls.filterMap (fun fe =>
    match fe.stat with
    | some _ => (mget m fe.path).map entryContribution
    | none => none)

/-- A normalized ISO timestamp: the canonical rendering of some valid
date-time components. -/
def NormIso (s : String) : Prop :=
  ∃ c, validComps c ∧ s = renderIso c

/-- Models `fsp.stat` on the modelled file system: `none` models a thrown error. -/
def statResolve (fsFiles : List FileEntry) (p : String) : Option FileStat :=
  match fsFiles.find? (fun fe => fe.path == p) with
  | some fe => fe.stat
  | none => none

/-- Lines 425-426: how `getSessionTimeline` resolves a session id to a
file path — the snapshot's sessions list first, else the
filename-stem / first-line fallback of `findFileForSession`. -/
def resolveSessionFile (index : IndexSnapshot) (fsFiles : List FileEntry)
    (sessionId : String) : Option String :=
  match index.sessions.find? (sessionMatches sessionId) with
  | some s => some s.file
  | none => findFileForSession fsFiles sessionId

/-- Concrete JSONL lines of the end-to-end example (T0 =
2024-03-05T10:20:30Z): metadata, a user message at T0+1s, a tool call
"shell" at T0+2s, and its output at T0+3s carrying exit_code 1. -/
def metaLine : String :=
  "\x7b\"type\":\"session_meta\",\"timestamp\":\"2024-03-05T10:20:30.000Z\",\"payload\":\x7b\"id\":\"abc\",\"cwd\":\"/tmp\",\"originator\":\"cli\"\x7d\x7d"

def userLine : String :=
  "\x7b\"type\":\"response_item\",\"timestamp\":\"2024-03-05T10:20:31.000Z\",\"payload\":\x7b\"type\":\"message\",\"role\":\"user\",\"content\":[\x7b\"type\":\"input_text\",\"text\":\"hello\"\x7d]\x7d\x7d"

def callLine : String :=
  "\x7b\"type\":\"response_item\",\"timestamp\":\"2024-03-05T10:20:32.000Z\",\"payload\":\x7b\"type\":\"function_call\",\"name\":\"shell\",\"call_id\":\"1\",\"arguments\":\"ls\"\x7d\x7d"

def outLine : String :=
  "\x7b\"type\":\"response_item\",\"timestamp\":\"2024-03-05T10:20:33.000Z\",\"payload\":\x7b\"type\":\"function_call_output\",\"call_id\":\"1\",\"output\":\"\x7b\\\"metadata\\\":\x7b\\\"exit_code\\\":1\x7d\x7d\"\x7d\x7d"

/-- An output record whose output both matches the error pattern and
carries a non-zero exit code. -/
def outBoth : String :=
  "\x7b\"metadata\":\x7b\"exit_code\":1\x7d,\"msg\":\"error\"\x7d"

def outLineBoth : String :=
  "\x7b\"type\":\"response_item\",\"payload\":\x7b\"type\":\"function_call_output\",\"output\":\"\x7b\\\"metadata\\\":\x7b\\\"exit_code\\\":1\x7d,\\\"msg\\\":\\\"error\\\"\x7d\"\x7d\x7d"

/-- A message record whose content array yields no text. -/
def emptyMsgLine : String :=
  "\x7b\"type\":\"response_item\",\"timestamp\":\"2024-03-05T10:20:31.000Z\",\"payload\":\x7b\"type\":\"message\",\"role\":\"user\",\"content\":[]\x7d\x7d"

/-- An aborted-turn record without a timestamp, and its decoding. -/
def abortLine : String :=
  "\x7b\"type\":\"event_msg\",\"payload\":\x7b\"type\":\"turn_aborted\"\x7d\x7d"

def abortObj : J :=
  J.obj [("type", J.str "event_msg"), ("payload", J.obj [("type", J.str "turn_aborted")])]

/-- An aborted-turn record with a timestamp. -/
def tsAbortLine : String :=
  "\x7b\"type\":\"event_msg\",\"timestamp\":\"2024-03-05T10:20:30.000Z\",\"payload\":\x7b\"type\":\"turn_aborted\"\x7d\x7d"

/-- A decoded message record with an empty content array. -/
def emptyMsgObj : J :=
  J.obj [("type", J.str "response_item"),
         ("payload", J.obj [("type", J.str "message"), ("role", J.str "user"),
                            ("content", J.arr [])])]

def dummySummary : SessionSummary := initialSummary "s" "f"

def emptyIndexSnapshot : IndexSnapshot :=
  ⟨INDEX_VERSION, "t0", "s", "c", ⟨0, 0, 0, 0, 0⟩, [], [], []⟩

/-- A snapshot listing one session whose file has been deleted. -/
def staleSummary : SessionSummary :=
  { initialSummary "sid1" "/gone.jsonl" with id := J.str "sid1" }

def staleIndexSnapshot : IndexSnapshot :=
  ⟨INDEX_VERSION, "t0", "s", "c", ⟨1, 1, 0, 0, 0⟩, [], [], [staleSummary]⟩

def noTlCache : String → Option TLCacheEntry := fun _ => none

/-- The C2 / C6 concrete corpus entries. -/
def toolThenMetaEntry : FileEntry :=
  ⟨"s/a.jsonl", some ⟨5, 100⟩, [callLine, metaLine]⟩

def exampleEntry : FileEntry :=
  ⟨"s/rollout-abc.jsonl", some ⟨7, 250⟩, [metaLine, userLine, callLine, outLine]⟩

/-- A file discovered by the walk whose stat then fails: reachable only
through the filename-stem fallback of `findFileForSession`. -/
def ghostEntry : FileEntry :=
  ⟨"s/ghost.jsonl", none, []⟩

/-- A decoded aborted-turn record with a parseable timestamp. -/
def tsAbortObj : J :=
  J.obj [("type", J.str "event_msg"),
         ("timestamp", J.str "2024-03-05T10:20:30.000Z"),
         ("payload", J.obj [("type", J.str "turn_aborted")])]

/-
Theorems.  General-purpose helper lemmas first, then one theorem (plus
witness / counterexample) per claim.
-/

set_option maxRecDepth 10000

theorem jIsStr_iff {x : Option J} {s : String} :
    jIsStr x s = true ↔ x = some (J.str s) := by
  cases x with
  | none => simp [jIsStr]
  | some v => cases v <;> simp [jIsStr]

theorem jIsStr_unique {x : Option J} {s t : String}
    (hs : jIsStr x s = true) (ht : jIsStr x t = true) : s = t := by
  rw [jIsStr_iff] at hs ht
  rw [hs] at ht
  simpa using ht

theorem cOf_tsUpdate (st : FileScanState) (obj : J) :
    cOf (tsUpdate st obj) = cOf st := by
  unfold tsUpdate
  split <;> rfl

theorem cOf_metaUpdate (sessionId file : String) (st : FileScanState) (obj : J) :
    cOf (metaUpdate sessionId file st obj) = metaC obj (cOf st) := by
  unfold metaUpdate metaC
  split <;> rfl

theorem cOf_abortUpdate (st : FileScanState) (obj : J) :
    cOf (abortUpdate st obj) = abortC obj (cOf st) := by
  unfold abortUpdate abortC
  split <;> rfl

theorem cOf_respUpdate (st : FileScanState) (obj : J) :
    cOf (respUpdate st obj) = respC obj (cOf st) := by
  unfold respUpdate respC
  split
  · dsimp only
    split
    · split <;> rfl
    · split
      · rfl
      · split
        · split <;> (try split) <;> rfl
        · rfl
  · rfl

theorem cOf_scanStep (sessionId file : String) (st : FileScanState) (line : String) :
    cOf (scanStep sessionId file st line) = lineC line (cOf st) := by
  unfold scanStep lineC processRec
  cases safeJsonParse line with
  | none => rfl
  | some obj =>
    by_cases h : jFalsy obj = true
    · simp [h]
    · simp only [Bool.not_eq_true] at h
      simp [h, cOf_respUpdate, cOf_abortUpdate, cOf_metaUpdate, cOf_tsUpdate]

theorem cOf_foldl (sessionId file : String) (ls : List String) (st : FileScanState) :
    cOf (ls.foldl (scanStep sessionId file) st) =
      ls.foldl (fun c l => lineC l c) (cOf st) := by
  induction ls generalizing st with
  | nil => rfl
  | cons l ls ih =>
    simp only [List.foldl_cons]
    rw [ih, cOf_scanStep]

theorem countersTriple_buildFileIndex (file : String) (lines : List String) :
    countersTriple (buildFileIndex file lines) =
      lines.foldl (fun c l => lineC l c) (0, 0, 0) :=
  cOf_foldl (basenameNoJsonl file) file lines
    (initScanState (basenameNoJsonl file) file)

theorem lineC_of_meta {line : String} (h : isSessionMetaLine line = true)
    (c : Nat × Nat × Nat) : lineC line c = (0, 0, 0) := by
  unfold isSessionMetaLine at h
  unfold lineC
  cases hp : safeJsonParse line with
  | none => rw [hp] at h; exact absurd h (by simp)
  | some obj =>
    rw [hp] at h
    simp only [Bool.and_eq_true, Bool.not_eq_true'] at h
    obtain ⟨hf, hm⟩ := h
    simp only [hf, Bool.false_eq_true, if_false]
    have hms : jField obj "type" = some (J.str "session_meta") := jIsStr_iff.mp hm
    have h1 : metaC obj c = (0, 0, 0) := by unfold metaC; rw [hm]; rfl
    have h2 : abortC obj (0, 0, 0) = (0, 0, 0) := by
      unfold abortC
      have : jIsStr (jField obj "type") "event_msg" = false := by
        rw [hms]; simp [jIsStr]
      rw [this]
      rfl
    have h3 : respC obj (0, 0, 0) = (0, 0, 0) := by
      unfold respC
      have : jIsStr (jField obj "type") "response_item" = false := by
        rw [hms]; simp [jIsStr]
      rw [this]
      rfl
    rw [h1, h2, h3]

/-- Claim C1, counterexample: a user message followed by a
session-metadata record yields messages = 0, although the whole file
contains one counted message (the metadata record resets the counters),
so the final counters do not equal those computed over the whole file. -/
theorem c1_counterexample :
    (buildFileIndex "a.jsonl" [userLine, metaLine]).summary.messages = 0 ∧
    (buildFileIndex "a.jsonl" [userLine]).summary.messages = 1 := by
  exact ⟨rfl, rfl⟩

/-- Claim C1 (amended): a session-metadata record replaces the summary
wholesale, resetting the accumulated message / tool-call / error counters
to zero; the final counters of any file equal the counters computed over
just the records after the (last) metadata record. -/
theorem c1_amended_thm (file : String) (pre post : List String) (mline : String)
    (h : isSessionMetaLine mline = true) :
    countersTriple (buildFileIndex file (pre ++ mline :: post)) =
      countersTriple (buildFileIndex file post) := by
  rw [countersTriple_buildFileIndex, countersTriple_buildFileIndex]
  rw [List.foldl_append, List.foldl_cons]
  rw [lineC_of_meta h]

theorem c1_witness :
    isSessionMetaLine metaLine = true ∧
    countersTriple (buildFileIndex "a.jsonl" ([userLine] ++ metaLine :: [])) =
      countersTriple (buildFileIndex "a.jsonl" []) :=
  ⟨by decide, c1_amended_thm "a.jsonl" [userLine] [] metaLine (by decide)⟩

theorem outputErrors_char (errors : Nat) (out : String) :
    outputErrors errors out =
      errors + (if matchesErrPattern out then 1 else 0) +
        (if headIsBrace out && jsonNonzeroExit out then 1 else 0) := by
  unfold outputErrors jsonNonzeroExit
  by_cases hb : headIsBrace out = true
  · simp only [hb, Bool.true_and, if_true]
    cases hp : safeJsonParse out with
    | none =>
      by_cases hm : matchesErrPattern out = true <;> simp [hm]
    | some parsed =>
      by_cases hm : matchesErrPattern out = true <;>
        by_cases hz : isNonzeroNum (exitCodeOf parsed) = true <;>
          simp [hm, hz]
  · simp only [Bool.not_eq_true] at hb
    simp only [hb, Bool.false_and, Bool.false_eq_true, if_false]
    by_cases hm : matchesErrPattern out = true <;> simp [hm]

/-- Claim C3 (amended): a tool-call output record increments the error
counter once for each of the two conditions that hold: once when the
output text matches the error/exception/traceback pattern, and once when
the output starts with a brace and parses as JSON exposing a numeric
non-zero metadata exit code — so by two when both hold; a record
satisfying neither condition leaves the counter unchanged. -/
theorem c3_amended_thm (sessionId file : String) (st : FileScanState) (out : String) :
    (processRec sessionId file st (outputRecord out)).summary.errors =
      st.summary.errors + (if matchesErrPattern out then 1 else 0) +
        (if headIsBrace out && jsonNonzeroExit out then 1 else 0) := by
  have h1 : tsUpdate st (outputRecord out) = st := by
    unfold tsUpdate
    rw [show jField (outputRecord out) "timestamp" = none from rfl]
    rfl
  have h2 : metaUpdate sessionId file st (outputRecord out) = st := by
    unfold metaUpdate
    simp [show jIsStr (jField (outputRecord out) "type") "session_meta" = false from rfl]
  have h3 : abortUpdate st (outputRecord out) = st := by
    unfold abortUpdate
    simp [show jIsStr (jField (outputRecord out) "type") "event_msg" = false from rfl]
  unfold processRec
  rw [h1, h2, h3]
  unfold respUpdate
  rw [show jIsStr (jField (outputRecord out) "type") "response_item" = true from rfl]
  simp only [if_true]
  rw [show coalesceToObj (jField (outputRecord out) "payload") =
        J.obj [("type", J.str "function_call_output"), ("output", J.str out)] from rfl]
  rw [show jIsStr (jField (J.obj [("type", J.str "function_call_output"),
        ("output", J.str out)]) "type") "message" = false from rfl]
  rw [show jIsStr (jField (J.obj [("type", J.str "function_call_output"),
        ("output", J.str out)]) "type") "function_call" = false from rfl]
  rw [show jIsStr (jField (J.obj [("type", J.str "function_call_output"),
        ("output", J.str out)]) "type") "custom_tool_call" = false from rfl]
  rw [show jIsStr (jField (J.obj [("type", J.str "function_call_output"),
        ("output", J.str out)]) "type") "function_call_output" = true from rfl]
  rw [show asString (jField (J.obj [("type", J.str "function_call_output"),
        ("output", J.str out)]) "output") = some out from rfl]
  simp only [Bool.false_eq_true, if_false, if_true, Bool.false_or, Bool.true_or]
  by_cases hout : out = ""
  · subst hout
    simp [show matchesErrPattern "" = false from rfl,
      show headIsBrace "" = false from rfl]
  · simp only [hout, if_false]
    exact outputErrors_char st.summary.errors out

/-- Claim C3, counterexample: an output string satisfying both the
pattern condition and the exit-code condition increments the error
counter by two, not by one as the claim states. -/
theorem c3_counterexample :
    matchesErrPattern outBoth = true ∧ headIsBrace outBoth = true ∧
    jsonNonzeroExit outBoth = true ∧
    (buildFileIndex "a.jsonl" [outLineBoth]).summary.errors = 2 := by
  exact ⟨rfl, rfl, rfl, rfl⟩

theorem mget_mset {α : Type} (m : List (String × α)) (k : String) (v : α) (k2 : String) :
    mget (mset m k v) k2 = if k2 = k then some v else mget m k2 := by
  induction m with
  | nil =>
    rcases eq_or_ne k2 k with h | h
    · subst h; simp [mset, mget]
    · simp [mset, mget, h, Ne.symm h]
  | cons kv rest ih =>
    obtain ⟨a, b⟩ := kv
    simp only [mset]
    rcases eq_or_ne a k with hak | hak
    · subst hak
      simp only [if_pos rfl]
      rcases eq_or_ne a k2 with h2 | h2
      · subst h2; simp [mget]
      · simp [mget, h2, Ne.symm h2]
    · simp only [if_neg hak]
      rcases eq_or_ne a k2 with h2 | h2
      · subst h2
        simp [mget, hak]
      · simp [mget, h2, Ne.symm h2, ih]

theorem toolsSum_cons (a : String × Nat) (rest : List (String × Nat)) :
    toolsSum (a :: rest) = a.2 + toolsSum rest := by
  simp [toolsSum]

theorem toolsSum_mset_add (t : List (String × Nat)) (k : String) (v : Nat) :
    toolsSum (mset t k ((mget t k).getD 0 + v)) = toolsSum t + v := by
  induction t with
  | nil => simp [mset, mget, toolsSum]
  | cons kv rest ih =>
    obtain ⟨k2, v2⟩ := kv
    rcases eq_or_ne k2 k with h | h
    · subst h
      rw [show mset ((k2, v2) :: rest) k2 ((mget ((k2, v2) :: rest) k2).getD 0 + v) =
            (k2, v2 + v) :: rest from by simp [mset, mget]]
      rw [toolsSum_cons, toolsSum_cons]
      omega
    · rw [show mset ((k2, v2) :: rest) k ((mget ((k2, v2) :: rest) k).getD 0 + v) =
            (k2, v2) :: mset rest k ((mget rest k).getD 0 + v) from by simp [mset, mget, h]]
      rw [toolsSum_cons, toolsSum_cons, ih]
      omega

theorem toolsSum_mergeTools (add t : List (String × Nat)) :
    toolsSum (mergeTools t add) = toolsSum t + toolsSum add := by
  induction add generalizing t with
  | nil => simp [mergeTools, toolsSum]
  | cons kv rest ih =>
    obtain ⟨k, v⟩ := kv
    have step : mergeTools t ((k, v) :: rest) =
        mergeTools (mset t k ((mget t k).getD 0 + v)) rest := by
      simp [mergeTools]
    rw [step, ih, toolsSum_mset_add, toolsSum_cons]
    omega

theorem tools_tsUpdate (st : FileScanState) (obj : J) :
    (tsUpdate st obj).tools = st.tools := by
  unfold tsUpdate; split <;> rfl

theorem tools_metaUpdate (sessionId file : String) (st : FileScanState) (obj : J) :
    (metaUpdate sessionId file st obj).tools = st.tools := by
  unfold metaUpdate; split <;> rfl

theorem tools_abortUpdate (st : FileScanState) (obj : J) :
    (abortUpdate st obj).tools = st.tools := by
  unfold abortUpdate; split <;> rfl

/-- The response_item branch condition that bumps the histogram. -/
def objIsToolCall (obj : J) : Bool :=
  jIsStr (jField obj "type") "response_item" &&
    (jIsStr (jField (coalesceToObj (jField obj "payload")) "type") "function_call" ||
     jIsStr (jField (coalesceToObj (jField obj "payload")) "type") "custom_tool_call")

theorem toolsSum_respUpdate (st : FileScanState) (obj : J) :
    toolsSum (respUpdate st obj).tools =
      toolsSum st.tools + (if objIsToolCall obj then 1 else 0) := by
  unfold respUpdate objIsToolCall
  by_cases h1 : jIsStr (jField obj "type") "response_item" = true
  · simp only [h1, if_true, Bool.true_and]
    by_cases hm : jIsStr (jField (coalesceToObj (jField obj "payload")) "type") "message" = true
    · have hfc : jIsStr (jField (coalesceToObj (jField obj "payload")) "type") "function_call" = false := by
        cases hq : jIsStr (jField (coalesceToObj (jField obj "payload")) "type") "function_call" with
        | false => rfl
        | true => exact absurd (jIsStr_unique hm hq) (by decide)
      have hcc : jIsStr (jField (coalesceToObj (jField obj "payload")) "type") "custom_tool_call" = false := by
        cases hq : jIsStr (jField (coalesceToObj (jField obj "payload")) "type") "custom_tool_call" with
        | false => rfl
        | true => exact absurd (jIsStr_unique hm hq) (by decide)
      simp only [hm, if_true, hfc, hcc, Bool.or_self, Bool.false_eq_true, if_false]
      split <;> simp
    · simp only [hm, Bool.false_eq_true, if_false]
      by_cases hc : (jIsStr (jField (coalesceToObj (jField obj "payload")) "type") "function_call" ||
          jIsStr (jField (coalesceToObj (jField obj "payload")) "type") "custom_tool_call") = true
      · simp only [hc, if_true]
        exact toolsSum_mset_add st.tools _ 1
      · simp only [hc, Bool.false_eq_true, if_false]
        split
        · split
          · split <;> simp
          · simp
        · simp
  · simp [h1]

theorem toolsSum_scanStep (sessionId file : String) (st : FileScanState) (line : String) :
    toolsSum (scanStep sessionId file st line).tools =
      toolsSum st.tools + (if isToolCallLine line then 1 else 0) := by
  unfold scanStep isToolCallLine
  cases hp : safeJsonParse line with
  | none => simp
  | some obj =>
    by_cases hf : jFalsy obj = true
    · simp [hf]
    · simp only [Bool.not_eq_true] at hf
      simp only [hf, Bool.false_eq_true, if_false, Bool.not_false, Bool.true_and]
      unfold processRec
      rw [toolsSum_respUpdate, tools_abortUpdate, tools_metaUpdate, tools_tsUpdate]
      rfl

theorem toolsSum_foldl (sessionId file : String) (ls : List String) (st : FileScanState) :
    toolsSum ((ls.foldl (scanStep sessionId file) st)).tools =
      toolsSum st.tools + countToolCallLines ls := by
  induction ls generalizing st with
  | nil => simp [countToolCallLines]
  | cons l ls ih =>
    simp only [List.foldl_cons]
    rw [ih, toolsSum_scanStep]
    simp [countToolCallLines, List.countP_cons]
    omega

theorem toolsSum_buildFileIndex (file : String) (lines : List String) :
    toolsSum (buildFileIndex file lines).tools = countToolCallLines lines := by
  calc toolsSum (buildFileIndex file lines).tools
      = toolsSum (initScanState (basenameNoJsonl file) file).tools +
          countToolCallLines lines :=
        toolsSum_foldl (basenameNoJsonl file) file lines
          (initScanState (basenameNoJsonl file) file)
    _ = countToolCallLines lines := by simp [initScanState, toolsSum]

theorem pushContrib_mfiles (st : BState) (c : Contribution) :
    (pushContrib st c).mfiles = st.mfiles := rfl

theorem pushContrib_reread (st : BState) (c : Contribution) :
    (pushContrib st c).reread = st.reread := rfl

theorem pushContrib_aggOf (st : BState) (c : Contribution) :
    aggOf (pushContrib st c) = aggPush (aggOf st) c := rfl

theorem buildAndRecord_mfiles (st : BState) (fe : FileEntry) (s : FileStat) :
    (buildAndRecord st fe s).mfiles =
      mset st.mfiles fe.path
        ⟨s.mtimeMs, s.size, (buildFileIndex fe.path fe.lines).sessionId,
         (buildFileIndex fe.path fe.lines).summary,
         (buildFileIndex fe.path fe.lines).tools,
         (buildFileIndex fe.path fe.lines).dailyKey⟩ := rfl

theorem buildAndRecord_tools (st : BState) (fe : FileEntry) (s : FileStat) :
    (buildAndRecord st fe s).tools =
      mergeTools st.tools (buildFileIndex fe.path fe.lines).tools := rfl

theorem buildAndRecord_aggOf (st : BState) (fe : FileEntry) (s : FileStat) :
    aggOf (buildAndRecord st fe s) =
      aggPush (aggOf st)
        ⟨(buildFileIndex fe.path fe.lines).summary,
         (buildFileIndex fe.path fe.lines).tools,
         (buildFileIndex fe.path fe.lines).dailyKey⟩ := rfl

theorem buildAndRecord_reread (st : BState) (fe : FileEntry) (s : FileStat) :
    (buildAndRecord st fe s).reread = st.reread ++ [fe.path] := rfl

theorem stepFile_none (st : BState) (fe : FileEntry) (h : fe.stat = none) :
    stepFile st fe = st := by
  simp [stepFile, h]

theorem stepFile_reuse (st : BState) (fe : FileEntry) (s : FileStat) (prev : ManifestEntry)
    (hs : fe.stat = some s) (hm : mget st.mfiles fe.path = some prev)
    (hfp : prev.mtimeMs = s.mtimeMs ∧ prev.size = s.size) :
    stepFile st fe = pushContrib st (entryContribution prev) := by
  simp [stepFile, hs, hm, hfp, entryContribution]

theorem stepFile_build_of_none (st : BState) (fe : FileEntry) (s : FileStat)
    (hs : fe.stat = some s) (hm : mget st.mfiles fe.path = none) :
    stepFile st fe = buildAndRecord st fe s := by
  simp [stepFile, hs, hm]

theorem stepFile_build_of_mismatch (st : BState) (fe : FileEntry) (s : FileStat)
    (prev : ManifestEntry) (hs : fe.stat = some s) (hm : mget st.mfiles fe.path = some prev)
    (hfp : ¬(prev.mtimeMs = s.mtimeMs ∧ prev.size = s.size)) :
    stepFile st fe = buildAndRecord st fe s := by
  simp [stepFile, hs, hm, hfp]

theorem toolsSum_build_fresh (ls : List FileEntry) (st : BState)
    (hnd : (ls.map FileEntry.path).Nodup)
    (hnone : ∀ fe ∈ ls, mget st.mfiles fe.path = none) :
    toolsSum (ls.foldl stepFile st).tools = toolsSum st.tools + sumCalls ls := by
  induction ls generalizing st with
  | nil => simp [sumCalls]
  | cons fe ls ih =>
    obtain ⟨hnotin, hnd2⟩ : fe.path ∉ ls.map FileEntry.path ∧ (ls.map FileEntry.path).Nodup := by
      simpa [List.nodup_cons] using hnd
    have hfe : mget st.mfiles fe.path = none := hnone fe (by simp)
    simp only [List.foldl_cons]
    cases hstat : fe.stat with
    | none =>
      rw [stepFile_none st fe hstat,
        ih st hnd2 (fun g hg => hnone g (List.mem_cons_of_mem _ hg))]
      simp [sumCalls, liveCallCount, hstat]
    | some s =>
      rw [stepFile_build_of_none st fe s hstat hfe]
      have hnone2 : ∀ g ∈ ls, mget (buildAndRecord st fe s).mfiles g.path = none := by
        intro g hg
        rw [buildAndRecord_mfiles, mget_mset]
        have hne : g.path ≠ fe.path := by
          intro hgp
          exact hnotin (hgp ▸ List.mem_map_of_mem FileEntry.path hg)
        rw [if_neg hne]
        exact hnone g (List.mem_cons_of_mem _ hg)
      rw [ih (buildAndRecord st fe s) hnd2 hnone2, buildAndRecord_tools,
        toolsSum_mergeTools, toolsSum_buildFileIndex]
      simp [sumCalls, liveCallCount, hstat]
      omega

theorem foldl_add_map_sum {α : Type} (f : α → Nat) (l : List α) (a : Nat) :
    l.foldl (fun x s => x + f s) a = a + (l.map f).sum := by
  induction l generalizing a with
  | nil => simp
  | cons x xs ih =>
    simp only [List.foldl_cons, List.map_cons, List.sum_cons]
    rw [ih]
    omega

theorem sum_foldl_messages (ss : List SessionSummary) :
    ss.foldl (fun a s => a + s.messages) 0 = sumMessages ss := by
  rw [foldl_add_map_sum]; simp [sumMessages]

theorem sum_foldl_toolCalls (ss : List SessionSummary) :
    ss.foldl (fun a s => a + s.toolCalls) 0 = sumToolCalls ss := by
  rw [foldl_add_map_sum]; simp [sumToolCalls]

theorem sum_foldl_errors (ss : List SessionSummary) :
    ss.foldl (fun a s => a + s.errors) 0 = sumErrors ss := by
  rw [foldl_add_map_sum]; simp [sumErrors]

/-- Claim C2, counterexample: over a corpus with one file holding a tool
call followed by a session-metadata record, the snapshot's
totals.toolCalls is 0 while the tool histogram sums to 1, refuting the
claimed histogram invariant. -/
theorem c2_counterexample :
    (buildOrUpdateIndex "s" "c" none [toolThenMetaEntry] "t1").snapshot.totals.toolCalls = 0 ∧
    toolsSum (buildOrUpdateIndex "s" "c" none [toolThenMetaEntry] "t1").snapshot.tools = 1 := by
  exact ⟨rfl, rfl⟩

/-- Claim C2 (amended): the sums of per-session message / tool-call /
error counts over the snapshot's sessions always equal totals.messages /
totals.toolCalls / totals.errors; the histogram values of a fresh build
sum to the total number of tool-call records across the statted files,
which coincides with totals.toolCalls only when no file has a tool-call
record before a session-metadata record. -/
theorem c2_amended_thm (sessionsDir cacheDir : String) (prev : Option Manifest)
    (files : List FileEntry) (now : String)
    (hnodup : (files.map FileEntry.path).Nodup) :
    ((buildOrUpdateIndex sessionsDir cacheDir prev files now).snapshot.totals.messages =
        sumMessages (buildOrUpdateIndex sessionsDir cacheDir prev files now).snapshot.sessions ∧
      (buildOrUpdateIndex sessionsDir cacheDir prev files now).snapshot.totals.toolCalls =
        sumToolCalls (buildOrUpdateIndex sessionsDir cacheDir prev files now).snapshot.sessions ∧
      (buildOrUpdateIndex sessionsDir cacheDir prev files now).snapshot.totals.errors =
        sumErrors (buildOrUpdateIndex sessionsDir cacheDir prev files now).snapshot.sessions) ∧
    (prev = none →
      toolsSum (buildOrUpdateIndex sessionsDir cacheDir prev files now).snapshot.tools =
        sumCalls files) := by
  refine ⟨⟨?_, ?_, ?_⟩, ?_⟩
  · exact sum_foldl_messages _
  · exact sum_foldl_toolCalls _
  · exact sum_foldl_errors _
  · intro hprev
    subst hprev
    have h := toolsSum_build_fresh files
      ⟨initMfiles none sessionsDir, [], [], [], []⟩ hnodup (fun fe _ => rfl)
    calc toolsSum (buildOrUpdateIndex sessionsDir cacheDir none files now).snapshot.tools
        = toolsSum (BState.mk (initMfiles none sessionsDir) [] [] [] []).tools + sumCalls files := h
      _ = sumCalls files := by simp [toolsSum]

theorem c2_witness :
    ([exampleEntry].map FileEntry.path).Nodup ∧
    (buildOrUpdateIndex "s" "c" none [exampleEntry] "t1").snapshot.totals.messages =
      sumMessages (buildOrUpdateIndex "s" "c" none [exampleEntry] "t1").snapshot.sessions ∧
    toolsSum (buildOrUpdateIndex "s" "c" none [exampleEntry] "t1").snapshot.tools =
      sumCalls [exampleEntry] :=
  ⟨by decide,
   (c2_amended_thm "s" "c" none [exampleEntry] "t1" (by decide)).1.1,
   (c2_amended_thm "s" "c" none [exampleEntry] "t1" (by decide)).2 rfl⟩

theorem stepFile_mfiles_frame (st : BState) (fe : FileEntry) (k : String)
    (h : k ≠ fe.path) :
    mget (stepFile st fe).mfiles k = mget st.mfiles k := by
  cases hstat : fe.stat with
  | none => rw [stepFile_none st fe hstat]
  | some s =>
    cases hm : mget st.mfiles fe.path with
    | none =>
      rw [stepFile_build_of_none st fe s hstat hm, buildAndRecord_mfiles, mget_mset,
        if_neg h]
    | some prev =>
      by_cases hfp : prev.mtimeMs = s.mtimeMs ∧ prev.size = s.size
      · rw [stepFile_reuse st fe s prev hstat hm hfp, pushContrib_mfiles]
      · rw [stepFile_build_of_mismatch st fe s prev hstat hm hfp, buildAndRecord_mfiles,
          mget_mset, if_neg h]

theorem foldl_mfiles_frame (ls : List FileEntry) (st : BState) (k : String)
    (h : k ∉ ls.map FileEntry.path) :
    mget ((ls.foldl stepFile st)).mfiles k = mget st.mfiles k := by
  induction ls generalizing st with
  | nil => rfl
  | cons fe ls ih =>
    simp only [List.map_cons, List.mem_cons] at h
    push_neg at h
    simp only [List.foldl_cons]
    rw [ih _ h.2, stepFile_mfiles_frame st fe k h.1]

theorem mget_filter_keep {α : Type} (m : List (String × α)) (f : String → Bool)
    (k : String) (hk : f k = true) :
    mget (m.filter (fun kv => f kv.1)) k = mget m k := by
  induction m with
  | nil => rfl
  | cons kv rest ih =>
    obtain ⟨a, b⟩ := kv
    by_cases hfa : f a = true
    · simp only [List.filter_cons, hfa, if_true]
      by_cases hak : a = k
      · subst hak; simp [mget]
      · simp [mget, hak, ih]
    · have hane : a ≠ k := fun hc => hfa (hc ▸ hk)
      simp only [List.filter_cons, hfa, Bool.false_eq_true, if_false]
      rw [ih]
      simp [mget, hane]

theorem tripleList_congr (m1 m2 : List (String × ManifestEntry)) (ls : List FileEntry)
    (h : ∀ fe ∈ ls, mget m1 fe.path = mget m2 fe.path) :
    tripleList m1 ls = tripleList m2 ls := by
  induction ls with
  | nil => rfl
  | cons fe ls ih =>
    have hfe := h fe (by simp)
    have htl := ih (fun g hg => h g (List.mem_cons_of_mem _ hg))
    cases hstat : fe.stat with
    | none => simpa [tripleList, List.filterMap_cons, hstat] using htl
    | some s =>
      simp only [tripleList, List.filterMap_cons, hstat, hfe] at htl ⊢
      cases mget m2 fe.path <;> simp_all [tripleList]

theorem run1_char (ls : List FileEntry) (st : BState)
    (hnd : (ls.map FileEntry.path).Nodup) :
    (∀ fe ∈ ls, ∀ s, fe.stat = some s →
        ∃ e, mget ((ls.foldl stepFile st)).mfiles fe.path = some e ∧
          e.mtimeMs = s.mtimeMs ∧ e.size = s.size) ∧
    aggOf (ls.foldl stepFile st) =
      (tripleList ((ls.foldl stepFile st)).mfiles ls).foldl aggPush (aggOf st) := by
  induction ls generalizing st with
  | nil => exact ⟨by simp, by simp [tripleList]⟩
  | cons fe ls ih =>
    obtain ⟨hnotin, hnd2⟩ : fe.path ∉ ls.map FileEntry.path ∧
        (ls.map FileEntry.path).Nodup := by
      simpa [List.nodup_cons] using hnd
    simp only [List.foldl_cons]
    have hframe : mget ((ls.foldl stepFile (stepFile st fe))).mfiles fe.path =
        mget (stepFile st fe).mfiles fe.path := foldl_mfiles_frame ls _ fe.path hnotin
    obtain ⟨ih1, ih2⟩ := ih (stepFile st fe) hnd2
    cases hstat : fe.stat with
    | none =>
      rw [stepFile_none st fe hstat] at hframe ih1 ih2 ⊢
      constructor
      · intro g hg s hs
        rcases List.mem_cons.mp hg with hg | hg
        · subst hg; rw [hstat] at hs; exact absurd hs (by simp)
        · exact ih1 g hg s hs
      · rw [show tripleList ((ls.foldl stepFile st)).mfiles (fe :: ls) =
              tripleList ((ls.foldl stepFile st)).mfiles ls from by
            simp [tripleList, List.filterMap_cons, hstat]]
        exact ih2
    | some s =>
      have key : ∃ E : ManifestEntry,
          mget (stepFile st fe).mfiles fe.path = some E ∧
          E.mtimeMs = s.mtimeMs ∧ E.size = s.size ∧
          aggOf (stepFile st fe) = aggPush (aggOf st) (entryContribution E) := by
        rcases hm : mget st.mfiles fe.path with _ | prev
        · refine ⟨⟨s.mtimeMs, s.size, (buildFileIndex fe.path fe.lines).sessionId,
              (buildFileIndex fe.path fe.lines).summary,
              (buildFileIndex fe.path fe.lines).tools,
              (buildFileIndex fe.path fe.lines).dailyKey⟩, ?_, rfl, rfl, ?_⟩
          · rw [stepFile_build_of_none st fe s hstat hm, buildAndRecord_mfiles,
              mget_mset, if_pos rfl]
          · rw [stepFile_build_of_none st fe s hstat hm, buildAndRecord_aggOf]
            rfl
        · by_cases hfp : prev.mtimeMs = s.mtimeMs ∧ prev.size = s.size
          · refine ⟨prev, ?_, hfp.1, hfp.2, ?_⟩
            · rw [stepFile_reuse st fe s prev hstat hm hfp, pushContrib_mfiles, hm]
            · rw [stepFile_reuse st fe s prev hstat hm hfp, pushContrib_aggOf]
          · refine ⟨⟨s.mtimeMs, s.size, (buildFileIndex fe.path fe.lines).sessionId,
                (buildFileIndex fe.path fe.lines).summary,
                (buildFileIndex fe.path fe.lines).tools,
                (buildFileIndex fe.path fe.lines).dailyKey⟩, ?_, rfl, rfl, ?_⟩
            · rw [stepFile_build_of_mismatch st fe s prev hstat hm hfp,
                buildAndRecord_mfiles, mget_mset, if_pos rfl]
            · rw [stepFile_build_of_mismatch st fe s prev hstat hm hfp,
                buildAndRecord_aggOf]
              rfl
      obtain ⟨E, hEg, hEm, hEs, hEagg⟩ := key
      have hmfin : mget ((ls.foldl stepFile (stepFile st fe))).mfiles fe.path = some E := by
        rw [hframe]; exact hEg
      constructor
      · intro g hg s2 hs2
        rcases List.mem_cons.mp hg with hg | hg
        · subst hg
          rw [hstat] at hs2
          obtain rfl : s = s2 := by injection hs2
          exact ⟨E, hmfin, hEm, hEs⟩
        · exact ih1 g hg s2 hs2
      · rw [show tripleList ((ls.foldl stepFile (stepFile st fe))).mfiles (fe :: ls) =
              entryContribution E ::
                tripleList ((ls.foldl stepFile (stepFile st fe))).mfiles ls from by
            simp [tripleList, List.filterMap_cons, hstat, hmfin]]
        rw [List.foldl_cons, ← hEagg]
        exact ih2

theorem run2_reuse (ls : List FileEntry) (st : BState)
    (h : ∀ fe ∈ ls, ∀ s, fe.stat = some s →
        ∃ e, mget st.mfiles fe.path = some e ∧ e.mtimeMs = s.mtimeMs ∧ e.size = s.size) :
    (ls.foldl stepFile st).mfiles = st.mfiles ∧
    (ls.foldl stepFile st).reread = st.reread ∧
    aggOf (ls.foldl stepFile st) = (tripleList st.mfiles ls).foldl aggPush (aggOf st) := by
  induction ls generalizing st with
  | nil => exact ⟨rfl, rfl, by simp [tripleList]⟩
  | cons fe ls ih =>
    simp only [List.foldl_cons]
    cases hstat : fe.stat with
    | none =>
      rw [stepFile_none st fe hstat]
      obtain ⟨a, b, c⟩ := ih st (fun g hg => h g (List.mem_cons_of_mem _ hg))
      refine ⟨a, b, ?_⟩
      rw [show tripleList st.mfiles (fe :: ls) = tripleList st.mfiles ls from by
        simp [tripleList, List.filterMap_cons, hstat]]
      exact c
    | some s =>
      obtain ⟨e, hme, hm1, hm2⟩ := h fe (by simp) s hstat
      rw [stepFile_reuse st fe s e hstat hme ⟨hm1, hm2⟩]
      have hyp2 : ∀ g ∈ ls, ∀ s2, g.stat = some s2 →
          ∃ e2, mget (pushContrib st (entryContribution e)).mfiles g.path = some e2 ∧
            e2.mtimeMs = s2.mtimeMs ∧ e2.size = s2.size := by
        rw [pushContrib_mfiles]
        exact fun g hg => h g (List.mem_cons_of_mem _ hg)
      obtain ⟨a, b, c⟩ := ih (pushContrib st (entryContribution e)) hyp2
      rw [pushContrib_mfiles] at a
      rw [pushContrib_reread] at b
      rw [pushContrib_mfiles, pushContrib_aggOf] at c
      refine ⟨a, b, ?_⟩
      rw [show tripleList st.mfiles (fe :: ls) =
            entryContribution e :: tripleList st.mfiles ls from by
          simp [tripleList, List.filterMap_cons, hstat, hme]]
      rw [List.foldl_cons]
      exact c

theorem buildOrUpdateIndex_snapshot (d c : String) (prev : Option Manifest)
    (files : List FileEntry) (now : String) :
    (buildOrUpdateIndex d c prev files now).snapshot =
      ⟨INDEX_VERSION, now, d, c,
       ⟨files.length,
        (files.foldl stepFile ⟨initMfiles prev d, [], [], [], []⟩).sessions.length,
        (files.foldl stepFile ⟨initMfiles prev d, [], [], [], []⟩).sessions.foldl
          (fun a s => a + s.messages) 0,
        (files.foldl stepFile ⟨initMfiles prev d, [], [], [], []⟩).sessions.foldl
          (fun a s => a + s.toolCalls) 0,
        (files.foldl stepFile ⟨initMfiles prev d, [], [], [], []⟩).sessions.foldl
          (fun a s => a + s.errors) 0⟩,
       (files.foldl stepFile ⟨initMfiles prev d, [], [], [], []⟩).tools,
       (files.foldl stepFile ⟨initMfiles prev d, [], [], [], []⟩).daily,
       (files.foldl stepFile ⟨initMfiles prev d, [], [], [], []⟩).sessions⟩ := rfl

theorem buildOrUpdateIndex_manifest (d c : String) (prev : Option Manifest)
    (files : List FileEntry) (now : String) :
    (buildOrUpdateIndex d c prev files now).manifest =
      ⟨INDEX_VERSION, d,
       (files.foldl stepFile ⟨initMfiles prev d, [], [], [], []⟩).mfiles.filter
         (fun kv => (files.map FileEntry.path).contains kv.1)⟩ := rfl

theorem buildOrUpdateIndex_reread (d c : String) (prev : Option Manifest)
    (files : List FileEntry) (now : String) :
    (buildOrUpdateIndex d c prev files now).reread =
      (files.foldl stepFile ⟨initMfiles prev d, [], [], [], []⟩).reread := rfl

/-- Claim C6: rebuilding with no change to any file's fingerprint yields a
snapshot identical to the previous one except the generation timestamp,
and the second run reads no file's contents (its reread instrumentation is
empty: every file takes the manifest-reuse branch). -/
theorem c6_thm (sessionsDir cacheDir : String) (prev : Option Manifest)
    (files : List FileEntry) (t1 t2 : String)
    (hnodup : (files.map FileEntry.path).Nodup) :
    (buildOrUpdateIndex sessionsDir cacheDir
        (some (buildOrUpdateIndex sessionsDir cacheDir prev files t1).manifest)
        files t2).snapshot =
      { (buildOrUpdateIndex sessionsDir cacheDir prev files t1).snapshot with
          generatedAt := t2 } ∧
    (buildOrUpdateIndex sessionsDir cacheDir
        (some (buildOrUpdateIndex sessionsDir cacheDir prev files t1).manifest)
        files t2).reread = [] := by
  obtain ⟨h11, h12⟩ :=
    run1_char files ⟨initMfiles prev sessionsDir, [], [], [], []⟩ hnodup
  have hminit : initMfiles
      (some (buildOrUpdateIndex sessionsDir cacheDir prev files t1).manifest)
      sessionsDir =
      (files.foldl stepFile
        ⟨initMfiles prev sessionsDir, [], [], [], []⟩).mfiles.filter
        (fun kv => (files.map FileEntry.path).contains kv.1) := by
    rw [buildOrUpdateIndex_manifest]
    simp [initMfiles]
  have hreuse : ∀ fe ∈ files, ∀ s, fe.stat = some s →
      ∃ e, mget ((files.foldl stepFile
          ⟨initMfiles prev sessionsDir, [], [], [], []⟩).mfiles.filter
          (fun kv => (files.map FileEntry.path).contains kv.1)) fe.path = some e ∧
        e.mtimeMs = s.mtimeMs ∧ e.size = s.size := by
    intro fe hfe s hs
    obtain ⟨e, he, h1, h2⟩ := h11 fe hfe s hs
    refine ⟨e, ?_, h1, h2⟩
    rw [mget_filter_keep]
    · exact he
    · exact List.elem_eq_true_of_mem (List.mem_map_of_mem FileEntry.path hfe)
  obtain ⟨h21, h22, h23⟩ := run2_reuse files
    ⟨(files.foldl stepFile
        ⟨initMfiles prev sessionsDir, [], [], [], []⟩).mfiles.filter
        (fun kv => (files.map FileEntry.path).contains kv.1), [], [], [], []⟩ hreuse
  have hcong : tripleList
      ((files.foldl stepFile
          ⟨initMfiles prev sessionsDir, [], [], [], []⟩).mfiles.filter
          (fun kv => (files.map FileEntry.path).contains kv.1)) files =
      tripleList (files.foldl stepFile
        ⟨initMfiles prev sessionsDir, [], [], [], []⟩).mfiles files := by
    apply tripleList_congr
    intro fe hfe
    exact mget_filter_keep _ _ _
      (List.elem_eq_true_of_mem (List.mem_map_of_mem FileEntry.path hfe))
  have haggeq : aggOf (files.foldl stepFile
      ⟨(files.foldl stepFile
          ⟨initMfiles prev sessionsDir, [], [], [], []⟩).mfiles.filter
          (fun kv => (files.map FileEntry.path).contains kv.1), [], [], [], []⟩) =
      aggOf (files.foldl stepFile ⟨initMfiles prev sessionsDir, [], [], [], []⟩) := by
    rw [h23, hcong, h12]
    rfl
  have hdaily := congrArg (fun x => x.1) haggeq
  have htools := congrArg (fun x => x.2.1) haggeq
  have hsess := congrArg (fun x => x.2.2) haggeq
  simp only [aggOf] at hdaily htools hsess
  constructor
  · rw [buildOrUpdateIndex_snapshot, buildOrUpdateIndex_snapshot, hminit, hdaily,
      htools, hsess]
  · rw [buildOrUpdateIndex_reread, hminit]
    exact h22

theorem c6_witness :
    ([exampleEntry].map FileEntry.path).Nodup ∧
    (buildOrUpdateIndex "s" "c"
        (some (buildOrUpdateIndex "s" "c" none [exampleEntry] "t1").manifest)
        [exampleEntry] "t2").snapshot =
      { (buildOrUpdateIndex "s" "c" none [exampleEntry] "t1").snapshot with
          generatedAt := "t2" } ∧
    (buildOrUpdateIndex "s" "c"
        (some (buildOrUpdateIndex "s" "c" none [exampleEntry] "t1").manifest)
        [exampleEntry] "t2").reread = [] :=
  ⟨by decide,
   (c6_thm "s" "c" none [exampleEntry] "t1" "t2" (by decide)).1,
   (c6_thm "s" "c" none [exampleEntry] "t1" "t2" (by decide)).2⟩

theorem setLast_append {α : Type} (l : List α) (a b : α) :
    (l ++ [a]).set l.length b = l ++ [b] := by
  induction l with
  | nil => rfl
  | cons c cs ih => simp [List.set_cons_succ, ih]

theorem exists_append_single {α : Type} (l : List α) (a : α) (P : α → Prop) (h : P a) :
    ∃ d, l ++ [a] = l ++ d ∧ d.length ≤ 1 ∧ ∀ e ∈ d, P e :=
  ⟨[a], rfl, by simp, by simpa⟩

theorem exists_append_nil {α : Type} (l : List α) (P : α → Prop) :
    ∃ d, l = l ++ d ∧ d.length ≤ 1 ∧ ∀ e ∈ d, P e :=
  ⟨[], by simp, by simp, by simp⟩

theorem set_last_append_shape {α : Type} (l : List α) (a b : α) (P : α → Prop)
    (hb : P b) :
    ∃ d, (l ++ [a]).set ((l ++ [a]).length - 1) b = l ++ d ∧ d.length ≤ 1 ∧
      ∀ e ∈ d, P e := by
  refine ⟨[b], ?_, by simp, by simpa⟩
  rw [show (l ++ [a]).length - 1 = l.length from by simp]
  exact setLast_append l a b

theorem tlProcess_shape (st : TlState) (obj : J) :
    ∃ d, (tlProcess st obj).events = st.events ++ d ∧ d.length ≤ 1 ∧
      ∀ e ∈ d, e.ts = (toIso (jField obj "timestamp")).getD "" := by
  unfold tlProcess
  by_cases h1 : (jIsStr (jField obj "type") "event_msg" &&
      jIsStr ((jField obj "payload").bind (fun p => jField p "type")) "turn_aborted") = true
  · have ht : jIsStr (jField obj "type") "event_msg" = true := by
      have h := h1
      simp only [Bool.and_eq_true] at h
      exact h.1
    have h2 : jIsStr (jField obj "type") "response_item" = false := by
      cases hq : jIsStr (jField obj "type") "response_item" with
      | false => rfl
      | true => exact absurd (jIsStr_unique ht hq) (by decide)
    simp only [h1, h2, if_true, Bool.false_eq_true, if_false]
    exact exists_append_single _ _ _ rfl
  · simp only [h1, Bool.false_eq_true, if_false]
    by_cases h2 : jIsStr (jField obj "type") "response_item" = true
    · simp only [h2, if_true]
      by_cases hm : jIsStr (jField (coalesceToObj (jField obj "payload")) "type")
          "message" = true
      · simp only [hm, if_true]
        split
        · exact exists_append_single _ _ _ rfl
        · split
          · exact exists_append_single _ _ _ rfl
          · exact exists_append_single _ _ _ rfl
      · simp only [hm, Bool.false_eq_true, if_false]
        split
        · split
          · exact set_last_append_shape _ _ _ _ rfl
          · exact exists_append_single _ _ _ rfl
        · split
          · exact exists_append_single _ _ _ rfl
          · exact exists_append_nil _ _
    · simp only [h2, Bool.false_eq_true, if_false]
      exact exists_append_nil _ _

theorem parseIsoComps_valid {s : String} {c : DateComps}
    (h : parseIsoComps s = some c) : validComps c := by
  unfold parseIsoComps at h
  cases hr : parseIsoRaw s with
  | none => simp [hr] at h
  | some c0 =>
    simp only [hr] at h
    by_cases hv : validComps c0
    · rw [if_pos hv] at h
      injection h with h
      subst h
      exact hv
    · rw [if_neg hv] at h
      exact absurd h (by simp)

theorem toIso_norm {x : Option J} {r : String} (h : toIso x = some r) : NormIso r := by
  rcases x with _ | v
  · simp [toIso] at h
  · cases v with
    | str s =>
      simp only [toIso, isoNorm] at h
      cases hp : parseIsoComps s with
      | none => simp [hp] at h
      | some c =>
        simp only [hp] at h
        injection h with h
        exact ⟨c, parseIsoComps_valid hp, h.symm⟩
    | null => simp [toIso] at h
    | bool b => simp [toIso] at h
    | num n => simp [toIso] at h
    | arr xs => simp [toIso] at h
    | obj fs => simp [toIso] at h

theorem tlStep_shape (st : TlState) (line : String) :
    ∃ d, (tlStep st line).events = st.events ++ d ∧ d.length ≤ 1 ∧
      ∀ e ∈ d, e.ts = "" ∨ NormIso e.ts := by
  unfold tlStep
  cases hp : safeJsonParse line with
  | none => exact ⟨[], by simp, by simp, by simp⟩
  | some obj =>
    by_cases hf : jFalsy obj = true
    · simp only [hf, if_true]
      exact ⟨[], by simp, by simp, by simp⟩
    · simp only [hf, Bool.false_eq_true, if_false]
      obtain ⟨d, hd, hl, hts⟩ := tlProcess_shape st obj
      refine ⟨d, hd, hl, ?_⟩
      intro e he
      rcases htoIso : toIso (jField obj "timestamp") with _ | r
      · left
        have h := hts e he
        rw [htoIso] at h
        simpa using h
      · right
        have h := hts e he
        rw [htoIso] at h
        simp only [Option.getD_some] at h
        rw [h]
        exact toIso_norm htoIso

theorem tlFold_shape (ls : List String) (st : TlState) :
    ∃ d, (tlFold ls st).events = st.events ++ d ∧
      ∀ e ∈ d, e.ts = "" ∨ NormIso e.ts := by
  induction ls generalizing st with
  | nil => exact ⟨[], by simp [tlFold], by simp⟩
  | cons l ls ih =>
    obtain ⟨d1, hd1, _, hp1⟩ := tlStep_shape st l
    obtain ⟨d2, hd2, hp2⟩ := ih (tlStep st l)
    refine ⟨d1 ++ d2, ?_, ?_⟩
    · rw [show tlFold (l :: ls) st = tlFold ls (tlStep st l) from rfl, hd2, hd1,
        List.append_assoc]
    · intro e he
      rcases List.mem_append.mp he with h | h
      · exact hp1 e h
      · exact hp2 e h

theorem go_spec (ls : List String) (st : TlState)
    (hlt : st.events.length < maxEvents) :
    (buildTimelineGo ls st).1 = (tlFold ls st).events.take maxEvents ∧
    ((buildTimelineGo ls st).2 = true ↔ maxEvents ≤ (tlFold ls st).events.length) := by
  induction ls generalizing st with
  | nil =>
    constructor
    · rw [show buildTimelineGo [] st = (st.events, false) from rfl,
        show tlFold [] st = st from rfl]
      exact (List.take_of_length_le (le_of_lt hlt)).symm
    · rw [show buildTimelineGo [] st = (st.events, false) from rfl,
        show tlFold [] st = st from rfl]
      simp
      omega
  | cons l ls ih =>
    obtain ⟨d1, hd1, hl1, _⟩ := tlStep_shape st l
    have hfold : tlFold (l :: ls) st = tlFold ls (tlStep st l) := rfl
    by_cases hle : maxEvents ≤ (tlStep st l).events.length
    · have hlen : (tlStep st l).events.length = maxEvents := by
        rw [hd1] at hle ⊢
        rw [List.length_append] at hle ⊢
        omega
      have hgo : buildTimelineGo (l :: ls) st = ((tlStep st l).events, true) := by
        rw [show buildTimelineGo (l :: ls) st =
              (if maxEvents ≤ (tlStep st l).events.length then ((tlStep st l).events, true)
               else buildTimelineGo ls (tlStep st l)) from rfl]
        rw [if_pos hle]
      obtain ⟨d2, hd2, _⟩ := tlFold_shape ls (tlStep st l)
      constructor
      · rw [hgo, hfold, hd2, List.take_append_eq_append_take, hlen]
        simp [List.take_of_length_le, hlen.le]
      · rw [hgo, hfold, hd2]
        simp only [List.length_append, hlen]
        constructor
        · intro _
          omega
        · intro _
          trivial
    · push_neg at hle
      have hgo : buildTimelineGo (l :: ls) st = buildTimelineGo ls (tlStep st l) := by
        rw [show buildTimelineGo (l :: ls) st =
              (if maxEvents ≤ (tlStep st l).events.length then ((tlStep st l).events, true)
               else buildTimelineGo ls (tlStep st l)) from rfl]
        rw [if_neg (Nat.not_le.mpr hle)]
      rw [hgo, hfold]
      exact ih (tlStep st l) hle

/-- Claim C4: timeline extraction emits at most 5000 events; a file
producing more than 5000 qualifying events yields truncated = true and
exactly the first 5000 events in file order; a file producing fewer than
5000 yields all its events in order and truncated = false. -/
theorem c4_thm (lines : List String) (summary : SessionSummary) :
    (buildTimeline lines summary).events.length ≤ 5000 ∧
    (5000 < (uncappedEvents lines).length →
      (buildTimeline lines summary).truncated = true ∧
      (buildTimeline lines summary).events.length = 5000 ∧
      (buildTimeline lines summary).events = (uncappedEvents lines).take 5000) ∧
    ((uncappedEvents lines).length < 5000 →
      (buildTimeline lines summary).truncated = false ∧
      (buildTimeline lines summary).events = uncappedEvents lines) := by
  obtain ⟨he, ht⟩ := go_spec lines ⟨[], []⟩ (by decide)
  have hev : (buildTimeline lines summary).events = (uncappedEvents lines).take 5000 := he
  have htr : (buildTimeline lines summary).truncated = true ↔
      5000 ≤ (uncappedEvents lines).length := ht
  refine ⟨?_, ?_, ?_⟩
  · rw [hev]
    exact List.length_take_le _ _
  · intro h
    refine ⟨htr.mpr (by omega), ?_, hev⟩
    rw [hev, List.length_take]
    omega
  · intro h
    refine ⟨?_, ?_⟩
    · cases hq : (buildTimeline lines summary).truncated with
      | false => rfl
      | true => exact absurd (htr.mp hq) (by omega)
    · rw [hev]
      exact List.take_of_length_le (by omega)

theorem safeJsonParse_abortLine : safeJsonParse abortLine = some abortObj := by rfl

theorem tlProcess_abortObj (st : TlState) :
    tlProcess st abortObj =
      { st with events := st.events ++ [⟨"", "error", none, some "turn_aborted"⟩] } := by
  simp only [tlProcess]
  simp [show (jIsStr (jField abortObj "type") "event_msg" &&
      jIsStr ((jField abortObj "payload").bind (fun p => jField p "type"))
        "turn_aborted") = true from rfl,
    show jIsStr (jField abortObj "type") "response_item" = false from rfl,
    show (toIso (jField abortObj "timestamp")).getD "" = "" from rfl]

theorem tlStep_abortLine_len (st : TlState) :
    (tlStep st abortLine).events.length = st.events.length + 1 := by
  unfold tlStep
  rw [safeJsonParse_abortLine]
  show (if jFalsy abortObj = true then st else tlProcess st abortObj).events.length =
    st.events.length + 1
  rw [if_neg (by decide : ¬jFalsy abortObj = true)]
  rw [tlProcess_abortObj]
  simp

theorem uncapped_replicate_len (n : Nat) : ∀ st : TlState,
    (tlFold (List.replicate n abortLine) st).events.length = st.events.length + n := by
  induction n with
  | zero => intro st; simp [tlFold]
  | succ n ih =>
    intro st
    rw [List.replicate_succ]
    rw [show tlFold (abortLine :: List.replicate n abortLine) st =
          tlFold (List.replicate n abortLine) (tlStep st abortLine) from rfl]
    rw [ih, tlStep_abortLine_len]
    omega

theorem c4_witness :
    (5000 < (uncappedEvents (List.replicate 5001 abortLine)).length ∧
     (buildTimeline (List.replicate 5001 abortLine) dummySummary).truncated = true ∧
     (buildTimeline (List.replicate 5001 abortLine) dummySummary).events.length = 5000) ∧
    ((uncappedEvents ([] : List String)).length < 5000 ∧
     (buildTimeline ([] : List String) dummySummary).truncated = false) := by
  have hlen : (uncappedEvents (List.replicate 5001 abortLine)).length = 5001 := by
    rw [show uncappedEvents (List.replicate 5001 abortLine) =
          (tlFold (List.replicate 5001 abortLine) ⟨[], []⟩).events from rfl]
    rw [uncapped_replicate_len 5001 ⟨[], []⟩]
    simp
  have h5 : 5000 < (uncappedEvents (List.replicate 5001 abortLine)).length := by
    rw [hlen]; omega
  obtain ⟨_, h2, _⟩ := c4_thm (List.replicate 5001 abortLine) dummySummary
  obtain ⟨ha, hb, _⟩ := h2 h5
  obtain ⟨_, _, h3⟩ := c4_thm ([] : List String) dummySummary
  have h0 : (uncappedEvents ([] : List String)).length < 5000 := by
    rw [show uncappedEvents ([] : List String) = [] from rfl]
    simp
  exact ⟨⟨h5, ha, hb⟩, h0, (h3 h0).1⟩

/-- Claim C10: every timeline event's ts field is present and is either
the empty string or a normalized ISO timestamp; moreover, per record: a
record whose timestamp is missing or unparseable (toIso gives null)
yields events whose ts is exactly the empty string, and a record with a
parseable timestamp yields events whose ts is exactly its normalized
value. -/
theorem c10_thm :
    (∀ (lines : List String) (summary : SessionSummary),
      ∀ e ∈ (buildTimeline lines summary).events, e.ts = "" ∨ NormIso e.ts) ∧
    (∀ (st : TlState) (obj : J), toIso (jField obj "timestamp") = none →
      ∃ d, (tlProcess st obj).events = st.events ++ d ∧ ∀ e ∈ d, e.ts = "") ∧
    (∀ (st : TlState) (obj : J) (r : String),
      toIso (jField obj "timestamp") = some r →
      ∃ d, (tlProcess st obj).events = st.events ++ d ∧ ∀ e ∈ d, e.ts = r) := by
  refine ⟨?_, ?_, ?_⟩
  · intro lines summary e he
    obtain ⟨he2, _⟩ := go_spec lines ⟨[], []⟩ (by decide)
    rw [show (buildTimeline lines summary).events =
          (buildTimelineGo lines ⟨[], []⟩).1 from rfl, he2] at he
    have hmem : e ∈ (tlFold lines ⟨[], []⟩).events := List.mem_of_mem_take he
    obtain ⟨d, hd, hp⟩ := tlFold_shape lines ⟨[], []⟩
    rw [hd] at hmem
    rcases List.mem_append.mp hmem with h | h
    · exact absurd h (by simp)
    · exact hp e h
  · intro st obj h
    obtain ⟨d, hd, _, hts⟩ := tlProcess_shape st obj
    refine ⟨d, hd, ?_⟩
    intro e he
    rw [hts e he, h]
    rfl
  · intro st obj r h
    obtain ⟨d, hd, _, hts⟩ := tlProcess_shape st obj
    refine ⟨d, hd, ?_⟩
    intro e he
    rw [hts e he, h]
    rfl

theorem c10_witness :
    ((⟨"2024-03-05T10:20:30.000Z", "error", none, some "turn_aborted"⟩ : TimelineEvent) ∈
        (buildTimeline [tsAbortLine] dummySummary).events ∧
      ((⟨"2024-03-05T10:20:30.000Z", "error", none,
          some "turn_aborted"⟩ : TimelineEvent).ts = "" ∨
        NormIso (⟨"2024-03-05T10:20:30.000Z", "error", none,
          some "turn_aborted"⟩ : TimelineEvent).ts)) ∧
    (toIso (jField abortObj "timestamp") = none ∧
      ∃ d, (tlProcess (TlState.mk [] []) abortObj).events =
          (TlState.mk [] []).events ++ d ∧ ∀ e ∈ d, e.ts = "") ∧
    (toIso (jField tsAbortObj "timestamp") = some "2024-03-05T10:20:30.000Z" ∧
      ∃ d, (tlProcess (TlState.mk [] []) tsAbortObj).events =
          (TlState.mk [] []).events ++ d ∧
        ∀ e ∈ d, e.ts = "2024-03-05T10:20:30.000Z") := by
  have hmem : (⟨"2024-03-05T10:20:30.000Z", "error", none,
      some "turn_aborted"⟩ : TimelineEvent) ∈
      (buildTimeline [tsAbortLine] dummySummary).events := by decide
  exact ⟨⟨hmem, c10_thm.1 [tsAbortLine] dummySummary _ hmem⟩,
    ⟨rfl, c10_thm.2.1 ⟨[], []⟩ abortObj rfl⟩,
    ⟨rfl, c10_thm.2.2 ⟨[], []⟩ tsAbortObj "2024-03-05T10:20:30.000Z" rfl⟩⟩

/-- Claim C8, counterexample: a message record whose content yields no
text produces an event whose text field is present and equal to the
empty string, not an absent field. -/
theorem c8_counterexample :
    (buildTimeline [emptyMsgLine] dummySummary).events =
      [⟨"2024-03-05T10:20:31.000Z", "user", none, some ""⟩] := by rfl

/-- Claim C8 (amended): for a message record whose concatenated textual
content is empty, the emitted event carries text present as the empty
string (the extractor's null is coalesced to ""). -/
theorem c8_amended_thm (st : TlState) (obj : J)
    (h1 : jIsStr (jField obj "type") "response_item" = true)
    (h2 : jIsStr (jField (coalesceToObj (jField obj "payload")) "type") "message" = true)
    (h3 : extractMessageText (coalesceToObj (jField obj "payload")) = none) :
    ∃ k, (tlProcess st obj).events =
      st.events ++ [⟨(toIso (jField obj "timestamp")).getD "", k, none, some ""⟩] := by
  have hev : jIsStr (jField obj "type") "event_msg" = false := by
    cases hq : jIsStr (jField obj "type") "event_msg" with
    | false => rfl
    | true => exact absurd (jIsStr_unique hq h1) (by decide)
  unfold tlProcess
  simp only [hev, Bool.false_and, Bool.false_eq_true, if_false, h1, if_true, h2, h3,
    Option.getD_none]
  split
  · exact ⟨"user", rfl⟩
  · split
    · exact ⟨"assistant", rfl⟩
    · exact ⟨"other", rfl⟩

theorem c8_witness :
    jIsStr (jField emptyMsgObj "type") "response_item" = true ∧
    jIsStr (jField (coalesceToObj (jField emptyMsgObj "payload")) "type") "message" = true ∧
    extractMessageText (coalesceToObj (jField emptyMsgObj "payload")) = none ∧
    ∃ k, (tlProcess (TlState.mk [] []) emptyMsgObj).events =
      ([] : List TimelineEvent) ++
        [⟨(toIso (jField emptyMsgObj "timestamp")).getD "", k, none, some ""⟩] :=
  ⟨rfl, rfl, rfl, c8_amended_thm ⟨[], []⟩ emptyMsgObj rfl rfl rfl⟩

/-- Claim C5: a session id resolving to no file yields (never throws) the
well-formed synthetic response: errors 1, zero messages and tool calls,
truncated = false, and exactly one event, of kind "error". -/
theorem c5_thm (index : IndexSnapshot) (fsFiles : List FileEntry)
    (tlCache : String → Option TLCacheEntry) (now sessionId : String)
    (h1 : index.sessions.find? (sessionMatches sessionId) = none)
    (h2 : findFileForSession fsFiles sessionId = none) :
    getSessionTimeline index fsFiles tlCache now sessionId =
      Except.ok (syntheticMissingResponse sessionId now) ∧
    (syntheticMissingResponse sessionId now).summary.errors = 1 ∧
    (syntheticMissingResponse sessionId now).summary.messages = 0 ∧
    (syntheticMissingResponse sessionId now).summary.toolCalls = 0 ∧
    (syntheticMissingResponse sessionId now).truncated = false ∧
    (syntheticMissingResponse sessionId now).events.length = 1 ∧
    ∀ e ∈ (syntheticMissingResponse sessionId now).events, e.kind = "error" := by
  refine ⟨?_, rfl, rfl, rfl, rfl, rfl, ?_⟩
  · unfold getSessionTimeline
    simp only [h1, h2]
  · intro e he
    have hesing : e = ⟨now, "error", none, some "未找到对应 session 文件"⟩ := by
      simpa [syntheticMissingResponse] using he
    rw [hesing]

theorem c5_witness :
    emptyIndexSnapshot.sessions.find? (sessionMatches "nope") = none ∧
    findFileForSession [] "nope" = none ∧
    getSessionTimeline emptyIndexSnapshot [] noTlCache "t9" "nope" =
      Except.ok (syntheticMissingResponse "nope" "t9") :=
  ⟨rfl, rfl, (c5_thm emptyIndexSnapshot [] noTlCache "t9" "nope" rfl rfl).1⟩

/-- Claim C9: when the session id resolves to a file path — through the
snapshot's sessions list or through the filename / first-line fallback —
but the stat of that file fails, getSessionTimeline propagates the
failure to its caller instead of returning a synthetic response. -/
theorem c9_thm (index : IndexSnapshot) (fsFiles : List FileEntry)
    (tlCache : String → Option TLCacheEntry) (now sessionId f : String)
    (h1 : resolveSessionFile index fsFiles sessionId = some f)
    (h2 : f ≠ "")
    (h3 : statResolve fsFiles f = none) :
    ∃ msg, getSessionTimeline index fsFiles tlCache now sessionId =
      Except.error msg := by
  unfold resolveSessionFile at h1
  unfold getSessionTimeline
  unfold statResolve at h3
  cases hfind : index.sessions.find? (sessionMatches sessionId) with
  | some s =>
    simp only [hfind] at h1
    injection h1 with h1
    subst h1
    simp only [hfind]
    rw [if_neg h2]
    cases hf : fsFiles.find? (fun fe => fe.path == s.file) with
    | none =>
      simp only [hf]
      exact ⟨"ENOENT: " ++ s.file, rfl⟩
    | some fe =>
      simp only [hf] at h3 ⊢
      simp only [h3]
      exact ⟨"ENOENT: " ++ s.file, rfl⟩
  | none =>
    simp only [hfind] at h1
    simp only [hfind, h1]
    rw [if_neg h2]
    cases hf : fsFiles.find? (fun fe => fe.path == f) with
    | none =>
      simp only [hf]
      exact ⟨"ENOENT: " ++ f, rfl⟩
    | some fe =>
      simp only [hf] at h3 ⊢
      simp only [h3]
      exact ⟨"ENOENT: " ++ f, rfl⟩

theorem c9_witness :
    resolveSessionFile emptyIndexSnapshot [ghostEntry] "ghost" = some "s/ghost.jsonl" ∧
    ("s/ghost.jsonl" : String) ≠ "" ∧
    statResolve [ghostEntry] "s/ghost.jsonl" = none ∧
    ∃ msg, getSessionTimeline emptyIndexSnapshot [ghostEntry] noTlCache "t9" "ghost" =
      Except.error msg :=
  ⟨by decide, by decide, rfl,
   c9_thm emptyIndexSnapshot [ghostEntry] noTlCache "t9" "ghost" "s/ghost.jsonl"
     (by decide) (by decide) rfl⟩

/-- Claim C7: the four-record end-to-end example — metadata (id "abc",
T0 = 2024-03-05T10:20:30Z, cwd "/tmp", originator "cli"), a user message
at T0+1s, tool call "shell" (call-id "1") at T0+2s, and its output at
T0+3s containing metadata.exit_code 1 — yields messages 1, toolCalls 1,
errors 1, startedAt T0, endedAt T0+3s, durationSec 3, histogram
shell ↦ 1, and daily key equal to T0's calendar date. -/
theorem c7_thm :
    (buildFileIndex "rollout-abc.jsonl"
      [metaLine, userLine, callLine, outLine]).summary.messages = 1 ∧
    (buildFileIndex "rollout-abc.jsonl"
      [metaLine, userLine, callLine, outLine]).summary.toolCalls = 1 ∧
    (buildFileIndex "rollout-abc.jsonl"
      [metaLine, userLine, callLine, outLine]).summary.errors = 1 ∧
    (buildFileIndex "rollout-abc.jsonl"
      [metaLine, userLine, callLine, outLine]).summary.startedAt =
        some "2024-03-05T10:20:30.000Z" ∧
    (buildFileIndex "rollout-abc.jsonl"
      [metaLine, userLine, callLine, outLine]).summary.endedAt =
        some "2024-03-05T10:20:33.000Z" ∧
    (buildFileIndex "rollout-abc.jsonl"
      [metaLine, userLine, callLine, outLine]).summary.durationSec = some 3 ∧
    (buildFileIndex "rollout-abc.jsonl"
      [metaLine, userLine, callLine, outLine]).tools = [("shell", 1)] ∧
    (buildFileIndex "rollout-abc.jsonl"
      [metaLine, userLine, callLine, outLine]).dailyKey = "2024-03-05" := by
  exact ⟨rfl, rfl, rfl, rfl, rfl, rfl, rfl, rfl⟩
